import Mathlib

/-!
# Verification of `Src/logger.c` (kpf5297/mcu-logger)

A shallow embedding of the logger: the ring buffer (`ring_buffer_write`), the
transmission engine (`ring_buffer_send_next`), the transfer-complete handler
(`Logger_UART_TxCpltCallback`) and the logging facade (`Log`, `Log_Init`, ...).

Conventions of the embedding.

* The file-scope variables of `logger.c` are the fields of `Logger`; every C
  function is a Lean function from `Logger` to `Logger`.
* The compile-time macros (`LOG_USE_DMA`, `LOG_RING_BUFFER_SIZE`, ...) are the
  fields of `Config`.
* `head` and `tail` are `uint16_t`: every value stored into them is reduced
  modulo `2 ^ 16` (`u16`, `u16i`).
* A `char` or byte is a natural number; a C string is a list of bytes read up
  to (not including) the first `0`, the end of the list counting as the
  terminator (`c_str`).
* Calls into the HAL and into FatFS are recorded, in call order, in the fields
  `uart_tx`, `uart_blocking` and `sd_calls`. `logger.c` ignores what the HAL
  transmit functions and `f_write` return; a recorded transmit request is a
  transfer started.
* `LOG_ENTER_CRITICAL` and `LOG_EXIT_CRITICAL` do not change the variables of
  the logger, so they do not appear in the state functions; the order of the
  critical sections inside the handler is the subject of the event lists
  `Logger_UART_TxCpltCallback_events`.
-/

namespace McuLogger

/-! ## Data model -/

/-- Compile-time configuration of `logger.c` (lines 21-63). -/
structure Config where
  /-- Macro `LOG_USE_UART` is non-zero -/
  LOG_USE_UART : Bool
  /-- Macro `LOG_USE_SD` is non-zero -/
  LOG_USE_SD : Bool
  /-- Macro `LOG_USE_DMA` is non-zero -/
  LOG_USE_DMA : Bool
  /-- Macro `LOG_USE_IT` is non-zero -/
  LOG_USE_IT : Bool
  /-- Macro `LOG_BUFFER_SIZE`, the size of the formatting buffer of `Log` -/
  LOG_BUFFER_SIZE : Nat
  /-- Macro `LOG_RING_BUFFER_SIZE`, the number of slots of `ring_buffer` -/
  LOG_RING_BUFFER_SIZE : Nat
  /-- Field `LOG_UART_HANDLE.Instance`, the peripheral of the logger's UART -/
  uart_instance : Nat
  /-- the enumerator `LOG_LEVEL_INFO` of `logger.h` -/
  LOG_LEVEL_INFO : Nat
deriving DecidableEq, Repr

/-- The fields of `UART_HandleTypeDef` that `logger.c` reads. -/
structure UART_HandleTypeDef where
  Instance : Nat
  TxXferSize : Nat
deriving DecidableEq, Repr

/-- One asynchronous transmit request handed to the HAL
(`HAL_UART_Transmit_IT` or `HAL_UART_Transmit_DMA`): the index of
`ring_buffer` the pointer designates, the length, and the bytes found there
when the call is made. -/
structure Transfer where
  ptr : Nat
  len : Nat
  data : List Nat
deriving DecidableEq, Repr

/-- A call into FatFS made by the persistent sink. -/
inductive SdCall where
  | f_open
  | f_lseek
  | f_write (bytes : List Nat) (result : Nat)
  | f_sync
deriving DecidableEq, Repr

/-- The file-scope state of `logger.c` (lines 46-52, 68-71) together with the
record of the calls made to the external collaborators. -/
structure Logger where
  current_level : Nat
  logging_enabled : Nat
  ring_buffer : Nat → Nat
  head : Nat
  tail : Nat
  tx_busy : Bool
  sd_initialized : Nat
  /-- asynchronous transmit calls, oldest first -/
  uart_tx : List Transfer
  /-- blocking `HAL_UART_Transmit` calls, oldest first -/
  uart_blocking : List (List Nat)
  /-- FatFS calls, oldest first -/
  sd_calls : List SdCall
  /-- number of `vsnprintf` calls made by `Log` -/
  vsnprintf_calls : Nat

/-- Conversion of a non-negative value to `uint16_t`. -/
def u16 (x : Nat) : Nat := x % 65536

/-- Conversion of an `int` value to `uint16_t`. -/
def u16i (x : Int) : Nat := (x % 65536).toNat

/-- The characters of a C string: the bytes before the first `0`. -/
def c_str : List Nat → List Nat
  | [] => []
  | c :: rest => if c = 0 then [] else c :: c_str rest

/-- Result of `strlen`. -/
def strlen (data : List Nat) : Nat := (c_str data).length

/-- The `len` bytes of the array `buf` starting at index `ptr`. -/
def mem_read (buf : Nat → Nat) (ptr len : Nat) : List Nat :=
  (List.range len).map (fun i => buf (ptr + i))

/-! ## Ring buffer (lines 77-89) -/

/-- Function `ring_buffer_write`, lines 77-89: one list element per loop iteration. -/
def ring_buffer_write (cfg : Config) : List Nat → Logger → Logger
  | [], s => s
  | c :: rest, s =>
    if c = 0 then s
    else
      let next := u16 ((s.head + 1) % cfg.LOG_RING_BUFFER_SIZE)
      if next = s.tail then s
      else
        ring_buffer_write cfg rest
          { s with
            ring_buffer := fun i => if i = s.head then c else s.ring_buffer i
            head := next }

/-! ## Transmission engine (lines 94-112) -/

/-- The HAL call `HAL_UART_Transmit_IT(&LOG_UART_HANDLE, &ring_buffer[ptr], len)`:
the request is recorded. -/
def HAL_UART_Transmit_IT (ptr len : Nat) (s : Logger) : Logger :=
  { s with uart_tx := s.uart_tx ++ [⟨ptr, len, mem_read s.ring_buffer ptr len⟩] }

/-- The HAL call `HAL_UART_Transmit_DMA(&LOG_UART_HANDLE, &ring_buffer[ptr], len)`:
the request is recorded. -/
def HAL_UART_Transmit_DMA (ptr len : Nat) (s : Logger) : Logger :=
  { s with uart_tx := s.uart_tx ++ [⟨ptr, len, mem_read s.ring_buffer ptr len⟩] }

/-- The value of the local `len` of `ring_buffer_send_next` (lines 95, 101-103). -/
def send_len (cfg : Config) (s : Logger) : Nat :=
  if cfg.LOG_USE_DMA then
    (if s.head ≥ s.tail then u16i ((s.head : Int) - s.tail)
     else u16i ((cfg.LOG_RING_BUFFER_SIZE : Int) - s.tail))
  else 0

/-- Function `ring_buffer_send_next`, lines 94-112. -/
def ring_buffer_send_next (cfg : Config) (s : Logger) : Logger :=
  if s.tx_busy = true ∨ s.tail = s.head then s
  else
    let len := send_len cfg s
    let s1 := { s with tx_busy := true }
    if cfg.LOG_USE_DMA then HAL_UART_Transmit_DMA s1.tail len s1
    else if cfg.LOG_USE_IT then HAL_UART_Transmit_IT s1.tail 1 s1
    else s1

/-! ## Completion handler (lines 123-150) -/

/-- First critical section of the handler (lines 125-133): `tail` advances. -/
def TxCplt_advance_tail (cfg : Config) (huart : UART_HandleTypeDef) (s : Logger) : Logger :=
  if cfg.LOG_USE_DMA then
    { s with tail := u16 ((s.tail + huart.TxXferSize) % cfg.LOG_RING_BUFFER_SIZE) }
  else if cfg.LOG_USE_IT then
    { s with tail := u16 ((s.tail + 1) % cfg.LOG_RING_BUFFER_SIZE) }
  else s

/-- Second critical section of the handler (lines 134-137): `tx_busy` is
cleared and the engine is kicked. -/
def TxCplt_restart (cfg : Config) (s : Logger) : Logger :=
  ring_buffer_send_next cfg { s with tx_busy := false }

/-- Function `Logger_UART_TxCpltCallback`, lines 123-139. -/
def Logger_UART_TxCpltCallback (cfg : Config) (huart : UART_HandleTypeDef)
    (s : Logger) : Logger :=
  if huart.Instance = cfg.uart_instance then
    TxCplt_restart cfg (TxCplt_advance_tail cfg huart s)
  else s

/-- Function `HAL_UART_TxCpltCallback`, lines 148-150. -/
def HAL_UART_TxCpltCallback (cfg : Config) (huart : UART_HandleTypeDef)
    (s : Logger) : Logger :=
  Logger_UART_TxCpltCallback cfg huart s

/-! ## Logging facade (lines 159-249) -/

/-- Function `Log_Init`, lines 159-168. `fr_open` is the result of `f_open`
(`FR_OK` is `0`). -/
def Log_Init (cfg : Config) (fr_open : Nat) (s : Logger) : Logger :=
  let s1 := { s with head := 0, tail := 0, logging_enabled := 1 }
  if cfg.LOG_USE_SD then
    let s2 := { s1 with sd_calls := s1.sd_calls ++ [SdCall.f_open] }
    if fr_open = 0 then
      { s2 with sd_calls := s2.sd_calls ++ [SdCall.f_lseek], sd_initialized := 1 }
    else s2
  else s1

/-- Function `Log_SetLevel`, lines 174-176. -/
def Log_SetLevel (level : Nat) (s : Logger) : Logger :=
  { s with current_level := level }

/-- Function `Log_Disable`, lines 181-183. -/
def Log_Disable (s : Logger) : Logger :=
  { s with logging_enabled := 0 }

/-- Function `Log_Write_UART`, lines 228-235 (the default, weak definition). -/
def Log_Write_UART (cfg : Config) (msg : List Nat) (s : Logger) : Logger :=
  if cfg.LOG_USE_DMA = true ∨ cfg.LOG_USE_IT = true then
    ring_buffer_send_next cfg (ring_buffer_write cfg msg s)
  else
    { s with uart_blocking := s.uart_blocking ++ [c_str msg] }

/-- Function `Log_Write_SD`, lines 242-249 (the default, weak definition). `fr_write`
is the result of `f_write`, which the code ignores. -/
def Log_Write_SD (cfg : Config) (fr_write : Nat) (msg : List Nat) (s : Logger) : Logger :=
  if cfg.LOG_USE_SD then
    if s.sd_initialized ≠ 0 then
      { s with sd_calls := s.sd_calls ++ [SdCall.f_write (c_str msg) fr_write] }
    else s
  else s

/-- The string `vsnprintf(buffer, size, format, args)` leaves in `buffer`,
where `text` is the full expansion of `format` with `args`: at most
`size - 1` characters. -/
def vsnprintf (size : Nat) (text : List Nat) : List Nat :=
  (c_str text).take (size - 1)

/-- Function `Log`, lines 195-210. `text` is the expansion of the format string with its
arguments. -/
def Log (cfg : Config) (fr_write : Nat) (level : Nat) (text : List Nat)
    (s : Logger) : Logger :=
  if s.logging_enabled = 0 ∨ level > s.current_level then s
  else
    let buffer := vsnprintf cfg.LOG_BUFFER_SIZE text
    let s1 := { s with vsnprintf_calls := s.vsnprintf_calls + 1 }
    let s2 := if cfg.LOG_USE_UART then Log_Write_UART cfg buffer s1 else s1
    if cfg.LOG_USE_SD then Log_Write_SD cfg fr_write buffer s2 else s2

/-- Function `Log_Flush`, lines 215-221. -/
def Log_Flush (cfg : Config) (s : Logger) : Logger :=
  if cfg.LOG_USE_SD then
    if s.sd_initialized ≠ 0 then { s with sd_calls := s.sd_calls ++ [SdCall.f_sync] }
    else s
  else s

/-! ## Observations used by the specification -/

/-- Number of queued bytes, `(head - tail) mod N`. -/
def count (cfg : Config) (s : Logger) : Nat :=
  (s.head + cfg.LOG_RING_BUFFER_SIZE - s.tail) % cfg.LOG_RING_BUFFER_SIZE

/-- The queued bytes, read from `tail` to `head` with wraparound. -/
def queued (cfg : Config) (s : Logger) : List Nat :=
  (List.range (count cfg s)).map
    (fun i => s.ring_buffer ((s.tail + i) % cfg.LOG_RING_BUFFER_SIZE))

/-- A well-formed ring buffer: the array has at least one slot and no more
slots than the `uint16_t` cursors can address, and both cursors are array
indices. -/
structure WellFormed (cfg : Config) (s : Logger) : Prop where
  pos : 0 < cfg.LOG_RING_BUFFER_SIZE
  le_u16 : cfg.LOG_RING_BUFFER_SIZE ≤ 65536
  head_lt : s.head < cfg.LOG_RING_BUFFER_SIZE
  tail_lt : s.tail < cfg.LOG_RING_BUFFER_SIZE

instance WellFormed.decidable (cfg : Config) (s : Logger) : Decidable (WellFormed cfg s) :=
  decidable_of_iff
    (0 < cfg.LOG_RING_BUFFER_SIZE ∧ cfg.LOG_RING_BUFFER_SIZE ≤ 65536 ∧
      s.head < cfg.LOG_RING_BUFFER_SIZE ∧ s.tail < cfg.LOG_RING_BUFFER_SIZE)
    ⟨fun h => ⟨h.1, h.2.1, h.2.2.1, h.2.2.2⟩, fun h => ⟨h.pos, h.le_u16, h.head_lt, h.tail_lt⟩⟩

/-- All bytes handed to the asynchronous transport, in call order. -/
def tx_bytes : List Transfer → List Nat
  | [] => []
  | t :: ts => t.data ++ tx_bytes ts

/-! ## Start-up state and sample configurations -/

/-- The file-scope variables as their initialisers leave them at program
start (lines 46-52 and 70; `ring_buffer` has static storage, hence zeros),
with no call made yet. -/
def boot (cfg : Config) : Logger :=
  { current_level := cfg.LOG_LEVEL_INFO
    logging_enabled := 1
    ring_buffer := fun _ => 0
    head := 0
    tail := 0
    tx_busy := false
    sd_initialized := 0
    uart_tx := []
    uart_blocking := []
    sd_calls := []
    vsnprintf_calls := 0 }

/-- The defaults of lines 21-44 (interrupt mode, no SD card) with a ring of
`n` slots. -/
def config_it (n : Nat) : Config :=
  { LOG_USE_UART := true
    LOG_USE_SD := false
    LOG_USE_DMA := false
    LOG_USE_IT := true
    LOG_BUFFER_SIZE := 256
    LOG_RING_BUFFER_SIZE := n
    uart_instance := 1
    LOG_LEVEL_INFO := 2 }

/-- DMA mode with a ring of `n` slots. -/
def config_dma (n : Nat) : Config :=
  { config_it n with LOG_USE_DMA := true, LOG_USE_IT := false }

/-- The start-up state with the cursors moved to `h` and `t`. -/
def at_cursors (cfg : Config) (h t : Nat) : Logger :=
  { boot cfg with head := h, tail := t }


/-! ## Completions and scenarios -/

/-- The handle the HAL passes to the completion callback of the logger's UART:
`TxXferSize` holds the length of the transfer most recently started on it. -/
def huart_of (cfg : Config) (s : Logger) : UART_HandleTypeDef :=
  { Instance := cfg.uart_instance
    TxXferSize := match s.uart_tx.getLast? with
      | some t => t.len
      | none => 0 }

/-- A number `k` of completion notifications of the logger's UART in a row, with no other
call in between. -/
def completions (cfg : Config) : Nat → Logger → Logger
  | 0, s => s
  | k + 1, s => completions cfg k (Logger_UART_TxCpltCallback cfg (huart_of cfg s) s)

/-- Completion notifications delivered until the engine is Idle, at most
`fuel` of them. -/
def drain (cfg : Config) : Nat → Logger → Logger
  | 0, s => s
  | fuel + 1, s =>
    if s.tx_busy then drain cfg fuel (Logger_UART_TxCpltCallback cfg (huart_of cfg s) s)
    else s

/-- A sequence of `ring_buffer_write` calls, first string first. -/
def write_all (cfg : Config) : List (List Nat) → Logger → Logger
  | [], s => s
  | d :: ds, s => write_all cfg ds (ring_buffer_write cfg d s)

/-- The characters of a sequence of strings, concatenated in order. -/
def concat_all : List (List Nat) → List Nat
  | [] => []
  | d :: ds => c_str d ++ concat_all ds


/-- The bound of the specification on the number of completions needed to
drain `pending` bytes in units of `unit` bytes, `ceil(pending / unit)`. -/
def completion_bound (pending unit : Nat) : Nat := (pending + unit - 1) / unit


/-! ## The logger and its UART as a system -/

/-- The logger together with the bookkeeping of the completion notifications
its UART has delivered. -/
structure System where
  logger : Logger
  /-- number of completion notifications delivered so far -/
  completed : Nat
  /-- the handler has left its first critical section (line 128 or 132) and
  has not yet entered its second (line 134) -/
  in_handler : Bool

/-- The system after `Log_Init` at program start. -/
def System.start (cfg : Config) (fr_open : Nat) : System :=
  { logger := Log_Init cfg fr_open (boot cfg), completed := 0, in_handler := false }

/-- Number of transfers started and not yet completed. -/
def in_flight (sys : System) : Nat := sys.logger.uart_tx.length - sys.completed

/-- The handle passed to the handler on completion of the oldest transfer not
yet completed: `TxXferSize` is the length that transfer was started with. -/
def completing_huart (cfg : Config) (sys : System) : UART_HandleTypeDef :=
  { Instance := cfg.uart_instance
    TxXferSize := match sys.logger.uart_tx[sys.completed]? with
      | some t => t.len
      | none => 0 }

/-- The calls that drive the engine, each taken as a whole. -/
inductive Call where
  /-- a call `ring_buffer_write(data)` -/
  | enqueue (data : List Nat)
  /-- a call `ring_buffer_send_next()` -/
  | kick
  /-- a call of `Logger_UART_TxCpltCallback` for the transfer in flight -/
  | complete
deriving DecidableEq, Repr

/-- One call. A completion takes place only for a transfer in flight;
requested otherwise, it does not happen. -/
def call (cfg : Config) (sys : System) : Call → System
  | Call.enqueue data => { sys with logger := ring_buffer_write cfg data sys.logger }
  | Call.kick => { sys with logger := ring_buffer_send_next cfg sys.logger }
  | Call.complete =>
    if sys.completed < sys.logger.uart_tx.length then
      { sys with
        logger := Logger_UART_TxCpltCallback cfg (completing_huart cfg sys) sys.logger
        completed := sys.completed + 1 }
    else sys

/-- A sequence of calls, first call first. -/
def run (cfg : Config) : List Call → System → System
  | [], sys => sys
  | c :: cs, sys => run cfg cs (call cfg sys c)

/-- Whether the configuration compiles a call site for the call.
`ring_buffer_write` and `ring_buffer_send_next` are `static`; their call sites
in `Log_Write_UART` (lines 230 and 231) stand under
`#if LOG_USE_DMA || LOG_USE_IT` (line 229). The only other call of
`ring_buffer_send_next` is the one inside the handler (line 136), which is part
of the step `complete`. The handler itself is compiled in every
configuration. -/
def Call.compiled (cfg : Config) : Call → Bool
  | Call.enqueue _ => cfg.LOG_USE_DMA || cfg.LOG_USE_IT
  | Call.kick => cfg.LOG_USE_DMA || cfg.LOG_USE_IT
  | Call.complete => true

/-- The steps between which preemption can take place: each is the work of
one critical section (for the kick, together with the HAL call that follows
it). -/
inductive Atom where
  /-- one iteration of the loop of `ring_buffer_write` on the character `c`
  (lines 79-87) -/
  | write_byte (c : Nat)
  /-- a call `ring_buffer_send_next()` by the producer -/
  | kick
  /-- first critical section of the handler (lines 126-128 or 130-132), for
  the transfer in flight -/
  | cplt_advance_tail
  /-- second critical section of the handler (lines 134-137) -/
  | cplt_restart
deriving DecidableEq, Repr

/-- One atomic step. The handler is entered only for a transfer in flight and
its second section only follows its first; requested otherwise, the step
does not happen. -/
def atom (cfg : Config) (sys : System) : Atom → System
  | Atom.write_byte c => { sys with logger := ring_buffer_write cfg [c] sys.logger }
  | Atom.kick => { sys with logger := ring_buffer_send_next cfg sys.logger }
  | Atom.cplt_advance_tail =>
    if sys.in_handler = false ∧ sys.completed < sys.logger.uart_tx.length then
      { logger := TxCplt_advance_tail cfg (completing_huart cfg sys) sys.logger
        completed := sys.completed + 1
        in_handler := true }
    else sys
  | Atom.cplt_restart =>
    if sys.in_handler = true then
      { sys with logger := TxCplt_restart cfg sys.logger, in_handler := false }
    else sys

/-- An interleaving: a sequence of atomic steps, first step first. -/
def interleave (cfg : Config) : List Atom → System → System
  | [], sys => sys
  | a :: as, sys => interleave cfg as (atom cfg sys a)

/-- The number of positions by which the completion of the transfer in flight
advances `tail` (lines 127 and 131). -/
def advance_amount (cfg : Config) (sys : System) : Nat :=
  if cfg.LOG_USE_DMA then (completing_huart cfg sys).TxXferSize
  else if cfg.LOG_USE_IT then 1
  else 0

/-- The invariant of the engine. -/
structure Inv (cfg : Config) (sys : System) : Prop where
  wf : WellFormed cfg sys.logger
  completed_le : sys.completed ≤ sys.logger.uart_tx.length
  single : sys.logger.uart_tx.length ≤ sys.completed + 1
  flight : sys.completed < sys.logger.uart_tx.length →
    sys.logger.tx_busy = true ∧ sys.in_handler = false ∧
      advance_amount cfg sys ≤ count cfg sys.logger
  handler : sys.in_handler = true →
    sys.logger.tx_busy = true ∧ sys.completed = sys.logger.uart_tx.length
  busy : cfg.LOG_USE_DMA = true ∨ cfg.LOG_USE_IT = true → sys.logger.tx_busy = true →
    sys.completed < sys.logger.uart_tx.length ∨ sys.in_handler = true


/-- Single flight: at most one transfer is started and not yet completed, and
one is exactly when `tx_busy` is set. -/
def SingleFlight (sys : System) : Prop :=
  sys.completed ≤ sys.logger.uart_tx.length ∧
  sys.logger.uart_tx.length ≤ sys.completed + 1 ∧
  (sys.completed < sys.logger.uart_tx.length ↔ sys.logger.tx_busy = true)


/-- The steps of the scenario on a ring declared with 200000 slots in DMA
mode: 65535 bytes are written and sent as one transfer, then four more bytes
are written (the first at slot 65535, after which `head` wraps to 0) and the
engine is kicked. -/
def wide_ring_steps : List Atom :=
  List.replicate 65535 (Atom.write_byte 65)
    ++ [Atom.kick, Atom.cplt_advance_tail, Atom.cplt_restart, Atom.write_byte 65]
    ++ List.replicate 3 (Atom.write_byte 65)
    ++ [Atom.kick]

/-- The state the scenario `wide_ring_steps` reaches from `Log_Init` at
program start. -/
def wide_ring_state : System :=
  interleave (config_dma 200000) wide_ring_steps (System.start (config_dma 200000) 0)

/-- The cursors and the bookkeeping of a system, read off as values: `lens`
lists the lengths of the transfers started so far. -/
structure Snapshot (sys : System) (h t : Nat) (b : Bool) (lens : List Nat) (c : Nat)
    (m : Bool) : Prop where
  head_eq : sys.logger.head = h
  tail_eq : sys.logger.tail = t
  busy_eq : sys.logger.tx_busy = b
  lens_eq : sys.logger.uart_tx.map Transfer.len = lens
  completed_eq : sys.completed = c
  handler_eq : sys.in_handler = m


/-! ## Critical sections of the handler (lines 54-59, 94-139) -/

/-- The steps of the completion handler that matter for atomicity, in program
order. -/
inductive Ev where
  /-- the macro `LOG_ENTER_CRITICAL()`, by default `__disable_irq()` -/
  | enter_critical
  /-- the macro `LOG_EXIT_CRITICAL()`, by default `__enable_irq()` -/
  | exit_critical
  /-- the assignment to `tail`, line 127 or 131 -/
  | advance_tail
  /-- the assignment `tx_busy = false`, line 135 -/
  | clear_busy
  /-- the test `tx_busy || tail == head`, line 97 -/
  | test_busy_empty
  /-- the assignment `tx_busy = true`, line 104, with the computation of `len`, line 102 -/
  | set_busy
  /-- the call `HAL_UART_Transmit_DMA` or `HAL_UART_Transmit_IT`, line 108 or
  110, whose argument `&ring_buffer[tail]` reads `tail` -/
  | hal_transmit
deriving DecidableEq, Repr

/-- The steps of one call of `ring_buffer_send_next` (lines 94-112) on `s`. -/
def ring_buffer_send_next_events (cfg : Config) (s : Logger) : List Ev :=
  [Ev.enter_critical, Ev.test_busy_empty] ++
    (if s.tx_busy = true ∨ s.tail = s.head then [Ev.exit_critical]
     else
      [Ev.set_busy, Ev.exit_critical] ++
        (if cfg.LOG_USE_DMA then [Ev.hal_transmit]
         else if cfg.LOG_USE_IT then [Ev.hal_transmit]
         else []))

/-- The steps of one call of `Logger_UART_TxCpltCallback` (lines 123-139) on `s`. -/
def Logger_UART_TxCpltCallback_events (cfg : Config) (huart : UART_HandleTypeDef)
    (s : Logger) : List Ev :=
  if huart.Instance = cfg.uart_instance then
    (if cfg.LOG_USE_DMA then [Ev.enter_critical, Ev.advance_tail, Ev.exit_critical]
     else if cfg.LOG_USE_IT then [Ev.enter_critical, Ev.advance_tail, Ev.exit_critical]
     else [])
    ++ [Ev.enter_critical, Ev.clear_busy]
    ++ ring_buffer_send_next_events cfg
        { TxCplt_advance_tail cfg huart s with tx_busy := false }
    ++ [Ev.exit_critical]
  else []

/-- The effect of one step on the logger state. -/
def exec_ev (cfg : Config) (huart : UART_HandleTypeDef) (s : Logger) : Ev → Logger
  | Ev.enter_critical => s
  | Ev.exit_critical => s
  | Ev.test_busy_empty => s
  | Ev.advance_tail => TxCplt_advance_tail cfg huart s
  | Ev.clear_busy => { s with tx_busy := false }
  | Ev.set_busy => { s with tx_busy := true }
  | Ev.hal_transmit =>
    if cfg.LOG_USE_DMA then HAL_UART_Transmit_DMA s.tail (send_len cfg s) s
    else HAL_UART_Transmit_IT s.tail 1 s

/-- The steps of a list carried out in order. -/
def exec_events (cfg : Config) (huart : UART_HandleTypeDef) : List Ev → Logger → Logger
  | [], s => s
  | e :: es, s => exec_events cfg huart es (exec_ev cfg huart s e)

/-- Each step paired with whether interrupts are enabled once it is done,
starting with interrupts enabled or not as `irq` says: `enter_critical`
disables them, `exit_critical` enables them, no other step changes them. -/
def irq_trace : Bool → List Ev → List (Ev × Bool)
  | _, [] => []
  | irq, e :: es =>
    let irq1 := match e with
      | Ev.enter_critical => false
      | Ev.exit_critical => true
      | _ => irq
    (e, irq1) :: irq_trace irq1 es

/-- The part of a trace of the handler after the tail advance, up to the end
of the re-kick: what follows the `advance_tail` step, without the closing
`exit_critical` of the handler. -/
def finish_restart_window (tr : List (Ev × Bool)) : List (Ev × Bool) :=
  ((tr.dropWhile (fun p => decide (p.1 ≠ Ev.advance_tail))).drop 1).dropLast

/-- Interrupts are enabled after no step of the window. -/
def never_enabled (w : List (Ev × Bool)) : Bool :=
  w.all (fun p => !p.2)

/-- Interrupts are disabled at each of the four steps `advance_tail`,
`clear_busy`, `test_busy_empty` and `set_busy`: the writes of `tail` and
`tx_busy` and the test of line 97. The step `hal_transmit`, which reads `tail`
for its pointer argument, is not one of the four and is not constrained. -/
def guarded_steps_disabled (tr : List (Ev × Bool)) : Bool :=
  tr.all (fun p =>
    if p.1 = Ev.advance_tail ∨ p.1 = Ev.clear_busy ∨ p.1 = Ev.test_busy_empty
        ∨ p.1 = Ev.set_busy then !p.2
    else true)

/-- The steps strictly between the first `a` and the next `b`. -/
def steps_between (a b : Ev) (evs : List Ev) : List Ev :=
  ((evs.dropWhile (fun e => decide (e ≠ a))).drop 1).takeWhile (fun e => decide (e ≠ b))


/-- The contiguous run of queued bytes that starts at `tail`: the queued bytes
up to the physical end of the array, `min ((head - tail) mod N) (N - tail)`. -/
def contiguous_run (cfg : Config) (s : Logger) : Nat :=
  min (count cfg s) (cfg.LOG_RING_BUFFER_SIZE - s.tail)


/-- Two states agree on everything the asynchronous transport sink reads or
writes: the cursors, `tx_busy`, the buffer contents and the record of UART
transmit calls. -/
def SameRing (a b : Logger) : Prop :=
  a.head = b.head ∧ a.tail = b.tail ∧ a.tx_busy = b.tx_busy ∧
  a.ring_buffer = b.ring_buffer ∧ a.uart_tx = b.uart_tx ∧ a.uart_blocking = b.uart_blocking


/-- Interrupt mode with the SD sink configured too, with a ring of `n` slots. -/
def config_both (n : Nat) : Config :=
  { config_it n with LOG_USE_SD := true }

/-! # Lemmas and theorems -/

/-! ## Arithmetic of the cursors -/

theorem mod_of_lt_two_mul {x n : Nat} (h : x < 2 * n) :
    x % n = if x < n then x else x - n := by
  split
  · exact Nat.mod_eq_of_lt ‹_›
  · rw [Nat.mod_eq_sub_mod (by omega)]
    exact Nat.mod_eq_of_lt (by omega)

theorem u16_mod_eq {x n : Nat} (hn0 : 0 < n) (hn : n ≤ 65536) : u16 (x % n) = x % n := by
  unfold u16
  exact Nat.mod_eq_of_lt (lt_of_lt_of_le (Nat.mod_lt _ hn0) hn)

theorem count_eq {cfg : Config} {s : Logger} (wf : WellFormed cfg s) :
    count cfg s = if s.tail ≤ s.head then s.head - s.tail
      else s.head + cfg.LOG_RING_BUFFER_SIZE - s.tail := by
  have h1 := wf.head_lt
  have h2 := wf.tail_lt
  unfold count
  rw [mod_of_lt_two_mul (by omega)]
  split_ifs <;> omega

theorem count_lt {cfg : Config} {s : Logger} (wf : WellFormed cfg s) :
    count cfg s < cfg.LOG_RING_BUFFER_SIZE := by
  have h1 := wf.head_lt
  have h2 := wf.tail_lt
  rw [count_eq wf]
  split_ifs <;> omega

theorem count_eq_zero_iff {cfg : Config} {s : Logger} (wf : WellFormed cfg s) :
    count cfg s = 0 ↔ s.head = s.tail := by
  have h1 := wf.head_lt
  have h2 := wf.tail_lt
  rw [count_eq wf]
  split_ifs <;> omega

theorem tail_add_lt_mod {cfg : Config} {s : Logger} (wf : WellFormed cfg s) {i : Nat}
    (hi : i < count cfg s) :
    (s.tail + i) % cfg.LOG_RING_BUFFER_SIZE ≠ s.head := by
  have h1 := wf.head_lt
  have h2 := wf.tail_lt
  rw [count_eq wf] at hi
  rw [mod_of_lt_two_mul (by split_ifs at hi <;> omega)]
  split_ifs at hi ⊢ <;> omega

theorem tail_add_count {cfg : Config} {s : Logger} (wf : WellFormed cfg s) :
    (s.tail + count cfg s) % cfg.LOG_RING_BUFFER_SIZE = s.head := by
  have h1 := wf.head_lt
  have h2 := wf.tail_lt
  rw [count_eq wf]
  rw [mod_of_lt_two_mul (by split_ifs <;> omega)]
  split_ifs <;> omega

/-! ## One loop iteration of `ring_buffer_write` -/

theorem queued_length (cfg : Config) (s : Logger) : (queued cfg s).length = count cfg s := by
  simp [queued]

theorem full_iff_count {cfg : Config} {s : Logger} (wf : WellFormed cfg s) :
    (s.head + 1) % cfg.LOG_RING_BUFFER_SIZE = s.tail ↔
      count cfg s = cfg.LOG_RING_BUFFER_SIZE - 1 := by
  have h0 := wf.pos
  have h1 := wf.head_lt
  have h2 := wf.tail_lt
  rw [count_eq wf, mod_of_lt_two_mul (by omega)]
  split_ifs <;> omega

theorem push_wf {cfg : Config} {s : Logger} (wf : WellFormed cfg s) (f : Nat → Nat) :
    WellFormed cfg { s with ring_buffer := f,
                            head := (s.head + 1) % cfg.LOG_RING_BUFFER_SIZE } :=
  ⟨wf.pos, wf.le_u16, Nat.mod_lt _ (by have := wf.pos; omega), wf.tail_lt⟩

theorem push_count {cfg : Config} {s : Logger} (wf : WellFormed cfg s) (f : Nat → Nat)
    (hfull : (s.head + 1) % cfg.LOG_RING_BUFFER_SIZE ≠ s.tail) :
    count cfg { s with ring_buffer := f,
                       head := (s.head + 1) % cfg.LOG_RING_BUFFER_SIZE } = count cfg s + 1 := by
  have h0 := wf.pos
  have h1 := wf.head_lt
  have h2 := wf.tail_lt
  rw [count_eq (push_wf wf f), count_eq wf]
  simp only
  rw [mod_of_lt_two_mul (by omega)] at hfull ⊢
  split_ifs at hfull ⊢ <;> omega

theorem push_queued {cfg : Config} {s : Logger} (wf : WellFormed cfg s) (c : Nat)
    (hfull : (s.head + 1) % cfg.LOG_RING_BUFFER_SIZE ≠ s.tail) :
    queued cfg { s with ring_buffer := fun i => if i = s.head then c else s.ring_buffer i,
                        head := (s.head + 1) % cfg.LOG_RING_BUFFER_SIZE }
      = queued cfg s ++ [c] := by
  unfold queued
  rw [push_count wf _ hfull, List.range_succ, List.map_append]
  congr 1
  · apply List.map_congr_left
    intro i hi
    have := tail_add_lt_mod wf (List.mem_range.mp hi)
    simp [this]
  · simp [tail_add_count wf]

/-! ## `ring_buffer_write` as a whole -/

theorem ring_buffer_write_spec (cfg : Config) (data : List Nat) :
    ∀ s : Logger, WellFormed cfg s →
      WellFormed cfg (ring_buffer_write cfg data s) ∧
      queued cfg (ring_buffer_write cfg data s)
        = queued cfg s ++ (c_str data).take (cfg.LOG_RING_BUFFER_SIZE - 1 - count cfg s) := by
  induction data with
  | nil => intro s wf; simp [ring_buffer_write, c_str, wf]
  | cons c rest ih =>
    intro s wf
    have h0 := wf.pos
    unfold ring_buffer_write
    by_cases hc : c = 0
    · simp [hc, c_str, wf]
    · rw [if_neg hc, u16_mod_eq (by omega) wf.le_u16]
      by_cases hfull : (s.head + 1) % cfg.LOG_RING_BUFFER_SIZE = s.tail
      · have hcnt := (full_iff_count wf).mp hfull
        simp [hfull, hcnt, wf]
      · simp only [if_neg hfull]
        have hcnt : count cfg s < cfg.LOG_RING_BUFFER_SIZE - 1 := by
          have := count_lt wf
          have := mt (full_iff_count wf).mpr hfull
          omega
        obtain ⟨wf', hq⟩ := ih _ (push_wf wf _)
        refine ⟨wf', ?_⟩
        rw [hq, push_queued wf c hfull, push_count wf _ hfull]
        have : cfg.LOG_RING_BUFFER_SIZE - 1 - count cfg s
            = (cfg.LOG_RING_BUFFER_SIZE - 1 - (count cfg s + 1)) + 1 := by omega
        rw [this]
        simp [c_str, hc]

/-- Fields other than `ring_buffer` and `head` are not written by `ring_buffer_write`. -/
theorem ring_buffer_write_frame (cfg : Config) (data : List Nat) :
    ∀ s : Logger,
      (ring_buffer_write cfg data s).tail = s.tail ∧
      (ring_buffer_write cfg data s).tx_busy = s.tx_busy ∧
      (ring_buffer_write cfg data s).uart_tx = s.uart_tx ∧
      (ring_buffer_write cfg data s).current_level = s.current_level ∧
      (ring_buffer_write cfg data s).logging_enabled = s.logging_enabled ∧
      (ring_buffer_write cfg data s).sd_initialized = s.sd_initialized ∧
      (ring_buffer_write cfg data s).uart_blocking = s.uart_blocking ∧
      (ring_buffer_write cfg data s).sd_calls = s.sd_calls ∧
      (ring_buffer_write cfg data s).vsnprintf_calls = s.vsnprintf_calls := by
  induction data with
  | nil => intro s; simp [ring_buffer_write]
  | cons c rest ih =>
    intro s
    unfold ring_buffer_write
    by_cases hc : c = 0
    · simp [hc]
    · by_cases hfull : u16 ((s.head + 1) % cfg.LOG_RING_BUFFER_SIZE) = s.tail
      · simp [hc, hfull]
      · simpa [hc, hfull] using ih _

theorem ring_buffer_write_count {cfg : Config} (data : List Nat) {s : Logger}
    (wf : WellFormed cfg s) :
    count cfg (ring_buffer_write cfg data s)
      = min (count cfg s + strlen data) (cfg.LOG_RING_BUFFER_SIZE - 1) := by
  have h := (ring_buffer_write_spec cfg data s wf).2
  have hl := congrArg List.length h
  rw [queued_length, List.length_append, queued_length, List.length_take] at hl
  have := count_lt wf
  rw [hl, strlen]
  omega


theorem queued_of_empty {cfg : Config} {s : Logger} (wf : WellFormed cfg s)
    (h : s.head = s.tail) : queued cfg s = [] := by
  have := (count_eq_zero_iff wf).mpr h
  simp [queued, this]

theorem take_min_length {α : Type} (l : List α) (m : Nat) :
    l.take (min l.length m) = l.take m := by
  rcases Nat.le_total l.length m with h | h
  · rw [Nat.min_eq_left h, List.take_of_length_le (le_refl _), List.take_of_length_le h]
  · rw [Nat.min_eq_right h]

theorem ring_buffer_write_keeps_queued {cfg : Config} (data : List Nat) {s : Logger}
    (wf : WellFormed cfg s) {i : Nat} (hi : i < count cfg s) :
    (ring_buffer_write cfg data s).ring_buffer ((s.tail + i) % cfg.LOG_RING_BUFFER_SIZE)
      = s.ring_buffer ((s.tail + i) % cfg.LOG_RING_BUFFER_SIZE) := by
  obtain ⟨wf', hq⟩ := ring_buffer_write_spec cfg data s wf
  have ht := (ring_buffer_write_frame cfg data s).1
  have hc : i < count cfg (ring_buffer_write cfg data s) := by
    rw [ring_buffer_write_count data wf]
    have := count_lt wf
    omega
  have h := congrArg (fun l => l[i]?) hq
  simp only [queued] at h
  rw [List.getElem?_append_left (by simpa using hi)] at h
  simpa [hi, hc, ht] using h

/-! ## C1 and C2: capacity and the enqueue contract -/

/-- C1, as stated, fails when the capacity exceeds the range of the `uint16_t`
cursors: with `N = 65537`, `head = 65535`, `tail = 0` (65535 bytes queued) the
value `(head + 1) % N = 65536` is stored in a `uint16_t` as `0`, which equals
`tail`, so the byte is dropped and 65535 bytes stay queued, where the claim
promises `min (65535 + 1) (N - 1) = 65536`. -/
theorem C1_capacity_fails_beyond_uint16 :
    2 ≤ (config_it 65537).LOG_RING_BUFFER_SIZE ∧
    (at_cursors (config_it 65537) 65535 0).head < (config_it 65537).LOG_RING_BUFFER_SIZE ∧
    (at_cursors (config_it 65537) 65535 0).tail < (config_it 65537).LOG_RING_BUFFER_SIZE ∧
    count (config_it 65537)
        (ring_buffer_write (config_it 65537) [65] (at_cursors (config_it 65537) 65535 0))
      ≠ min (count (config_it 65537) (at_cursors (config_it 65537) 65535 0) + strlen [65])
          ((config_it 65537).LOG_RING_BUFFER_SIZE - 1) := by
  decide

/-- C1 (amended): for every capacity `N` with `2 ≤ N ≤ 65536` and every state
with `head`, `tail` in `[0, N)` holding `c = (head - tail) mod N` queued bytes,
`ring_buffer_write` of a string of length `L` leaves exactly
`min (c + L) (N - 1)` bytes queued; with `N = 8`, an empty buffer and the input
`"ABCDEFGH"`, exactly the 7 bytes `"ABCDEFG"` are queued. -/
theorem C1_capacity (cfg : Config) (s : Logger) (data : List Nat)
    (hN : 2 ≤ cfg.LOG_RING_BUFFER_SIZE) (hN16 : cfg.LOG_RING_BUFFER_SIZE ≤ 65536)
    (hh : s.head < cfg.LOG_RING_BUFFER_SIZE) (ht : s.tail < cfg.LOG_RING_BUFFER_SIZE) :
    count cfg (ring_buffer_write cfg data s)
      = min (count cfg s + strlen data) (cfg.LOG_RING_BUFFER_SIZE - 1) ∧
    (cfg.LOG_RING_BUFFER_SIZE = 8 → s.head = s.tail →
      queued cfg (ring_buffer_write cfg [65, 66, 67, 68, 69, 70, 71, 72] s)
        = [65, 66, 67, 68, 69, 70, 71]) := by
  have wf : WellFormed cfg s := ⟨by omega, hN16, hh, ht⟩
  refine ⟨ring_buffer_write_count data wf, ?_⟩
  intro h8 hempty
  have hq := (ring_buffer_write_spec cfg [65, 66, 67, 68, 69, 70, 71, 72] s wf).2
  rw [hq, queued_of_empty wf hempty, (count_eq_zero_iff wf).mpr hempty, h8]
  simp [c_str]

/-- The capacity theorem at `N = 8`, an empty buffer with both cursors at 5
and the input `"ABCDEFGH"`. -/
theorem C1_capacity_witness :
    count (config_it 8)
        (ring_buffer_write (config_it 8) [65, 66, 67, 68, 69, 70, 71, 72]
          (at_cursors (config_it 8) 5 5)) = 7 ∧
    queued (config_it 8)
        (ring_buffer_write (config_it 8) [65, 66, 67, 68, 69, 70, 71, 72]
          (at_cursors (config_it 8) 5 5)) = [65, 66, 67, 68, 69, 70, 71] := by
  have h := C1_capacity (config_it 8) (at_cursors (config_it 8) 5 5)
    [65, 66, 67, 68, 69, 70, 71, 72] (by decide) (by decide) (by decide) (by decide)
  exact ⟨h.1.trans (by decide), h.2 rfl rfl⟩

/-- C2: for every well-formed state and every input string, after
`ring_buffer_write` the queued sequence is the previously queued sequence
followed by the first `min L (N - 1 - c)` bytes of the input, in order (the
byte that finds the buffer full and all bytes after it are dropped); `tail`,
`tx_busy`, the record of started transfers and the slots of the already
queued bytes are unchanged. -/
theorem C2_enqueue_keeps_fitting_part (cfg : Config) (s : Logger) (data : List Nat)
    (wf : WellFormed cfg s) :
    queued cfg (ring_buffer_write cfg data s)
      = queued cfg s ++
          (c_str data).take (min (strlen data) (cfg.LOG_RING_BUFFER_SIZE - 1 - count cfg s)) ∧
    (ring_buffer_write cfg data s).tail = s.tail ∧
    (ring_buffer_write cfg data s).tx_busy = s.tx_busy ∧
    (ring_buffer_write cfg data s).uart_tx = s.uart_tx ∧
    (∀ i, i < count cfg s →
      (ring_buffer_write cfg data s).ring_buffer ((s.tail + i) % cfg.LOG_RING_BUFFER_SIZE)
        = s.ring_buffer ((s.tail + i) % cfg.LOG_RING_BUFFER_SIZE)) := by
  have hf := ring_buffer_write_frame cfg data s
  refine ⟨?_, hf.1, hf.2.1, hf.2.2.1, fun i hi => ring_buffer_write_keeps_queued data wf hi⟩
  rw [strlen, take_min_length]
  exact (ring_buffer_write_spec cfg data s wf).2

/-- The enqueue contract on a ring of 4 slots holding 2 bytes at slots 3 and 0
(cursors `tail = 3`, `head = 1`): of `"AB"` only `"A"` fits. -/
theorem C2_enqueue_keeps_fitting_part_witness :
    queued (config_it 4) (ring_buffer_write (config_it 4) [65, 66] (at_cursors (config_it 4) 1 3))
      = queued (config_it 4) (at_cursors (config_it 4) 1 3) ++ [65] :=
  (C2_enqueue_keeps_fitting_part (config_it 4) (at_cursors (config_it 4) 1 3) [65, 66]
    ⟨by decide, by decide, by decide, by decide⟩).1


/-! ## Advancing `tail` -/

theorem advance_wf {cfg : Config} {s : Logger} (wf : WellFormed cfg s) (n : Nat) :
    WellFormed cfg { s with tail := (s.tail + n) % cfg.LOG_RING_BUFFER_SIZE } :=
  ⟨wf.pos, wf.le_u16, wf.head_lt, Nat.mod_lt _ (by have := wf.pos; omega)⟩

theorem advance_count {cfg : Config} {s : Logger} (wf : WellFormed cfg s) {n : Nat}
    (hn : n ≤ count cfg s) :
    count cfg { s with tail := (s.tail + n) % cfg.LOG_RING_BUFFER_SIZE } = count cfg s - n := by
  have h1 := wf.head_lt
  have h2 := wf.tail_lt
  rw [count_eq (advance_wf wf n)]
  rw [count_eq wf] at hn ⊢
  simp only
  rw [mod_of_lt_two_mul (by split_ifs at hn <;> omega)]
  split_ifs at hn ⊢ <;> omega

theorem advance_queued {cfg : Config} {s : Logger} (wf : WellFormed cfg s) {n : Nat}
    (hn : n ≤ count cfg s) :
    queued cfg { s with tail := (s.tail + n) % cfg.LOG_RING_BUFFER_SIZE }
      = (queued cfg s).drop n := by
  apply List.ext_getElem
  · simp [queued_length, advance_count wf hn]
  · intro i h1 h2
    simp only [queued, List.getElem_map, List.getElem_range, List.getElem_drop,
      Nat.mod_add_mod, Nat.add_assoc]

theorem queued_head {cfg : Config} {s : Logger} (wf : WellFormed cfg s) {b : Nat}
    {q : List Nat} (h : queued cfg s = b :: q) : s.ring_buffer s.tail = b := by
  have hc : 0 < count cfg s := by
    rw [← queued_length, h]; simp
  have h0 := congrArg (fun l => l[0]?) h
  simp only [queued, List.getElem?_map, List.getElem?_range hc] at h0
  simpa [Nat.mod_eq_of_lt wf.tail_lt] using h0

theorem count_congr {cfg : Config} {s t : Logger} (h1 : t.head = s.head)
    (h2 : t.tail = s.tail) : count cfg t = count cfg s := by
  simp [count, h1, h2]

theorem queued_congr {cfg : Config} {s t : Logger} (h1 : t.head = s.head)
    (h2 : t.tail = s.tail) (h3 : t.ring_buffer = s.ring_buffer) :
    queued cfg t = queued cfg s := by
  simp [queued, count, h1, h2, h3]

theorem wf_congr {cfg : Config} {s t : Logger} (wf : WellFormed cfg s) (h1 : t.head = s.head)
    (h2 : t.tail = s.tail) : WellFormed cfg t :=
  ⟨wf.pos, wf.le_u16, h1 ▸ wf.head_lt, h2 ▸ wf.tail_lt⟩

theorem tx_bytes_append (a b : List Transfer) : tx_bytes (a ++ b) = tx_bytes a ++ tx_bytes b := by
  induction a with
  | nil => simp [tx_bytes]
  | cons t ts ih => simp [tx_bytes, ih]

/-! ## The handler and the kick in interrupt mode -/

theorem kick_busy (cfg : Config) (x : Logger) (hb : x.tx_busy = true) :
    ring_buffer_send_next cfg x = x := by
  simp [ring_buffer_send_next, hb]

theorem kick_it {cfg : Config} (hd : cfg.LOG_USE_DMA = false) (hi : cfg.LOG_USE_IT = true)
    (s : Logger) (hb : s.tx_busy = false) (hne : s.tail ≠ s.head) :
    ring_buffer_send_next cfg s
      = { s with tx_busy := true,
                 uart_tx := s.uart_tx ++ [⟨s.tail, 1, [s.ring_buffer s.tail]⟩] } := by
  simp [ring_buffer_send_next, hd, hi, hb, hne, HAL_UART_Transmit_IT, mem_read, List.range_succ]

theorem TxCplt_it {cfg : Config} (hd : cfg.LOG_USE_DMA = false) (hi : cfg.LOG_USE_IT = true)
    {s : Logger} (wf : WellFormed cfg s) (huart : UART_HandleTypeDef)
    (hinst : huart.Instance = cfg.uart_instance) :
    Logger_UART_TxCpltCallback cfg huart s
      = if (s.tail + 1) % cfg.LOG_RING_BUFFER_SIZE = s.head then
          { s with tail := (s.tail + 1) % cfg.LOG_RING_BUFFER_SIZE, tx_busy := false }
        else
          { s with tail := (s.tail + 1) % cfg.LOG_RING_BUFFER_SIZE, tx_busy := true,
                   uart_tx := s.uart_tx ++
                     [⟨(s.tail + 1) % cfg.LOG_RING_BUFFER_SIZE, 1,
                       [s.ring_buffer ((s.tail + 1) % cfg.LOG_RING_BUFFER_SIZE)]⟩] } := by
  have h0 := wf.pos
  simp only [Logger_UART_TxCpltCallback, hinst, if_true, TxCplt_restart, TxCplt_advance_tail,
    hd, hi, Bool.false_eq_true, if_false, u16_mod_eq (show 0 < cfg.LOG_RING_BUFFER_SIZE by omega)
    wf.le_u16]
  split_ifs with h
  · simp [ring_buffer_send_next, h]
  · rw [kick_it hd hi _ rfl h]


theorem huart_of_instance (cfg : Config) (s : Logger) :
    (huart_of cfg s).Instance = cfg.uart_instance := rfl

theorem cons_tail_of_head {cfg : Config} {s : Logger} (wf : WellFormed cfg s)
    (hc : 0 < count cfg s) :
    s.ring_buffer s.tail :: (queued cfg s).tail = queued cfg s := by
  have hl := queued_length cfg s
  cases hq : queued cfg s with
  | nil => rw [hq] at hl; simp at hl; omega
  | cons b q => rw [queued_head wf hq]; rfl

/-- In interrupt mode, a buffer holding `n + 1` bytes with the engine Sending
is drained by exactly `n + 1` completions. -/
theorem it_completions {cfg : Config} (hd : cfg.LOG_USE_DMA = false)
    (hi : cfg.LOG_USE_IT = true) :
    ∀ (n : Nat) (s : Logger), WellFormed cfg s → count cfg s = n + 1 → s.tx_busy = true →
      (∀ k, k ≤ n → (completions cfg k s).tx_busy = true) ∧
      (completions cfg (n + 1) s).tx_busy = false ∧
      (completions cfg (n + 1) s).head = (completions cfg (n + 1) s).tail ∧
      (completions cfg (n + 1) s).head = s.head ∧
      ∃ new, (completions cfg (n + 1) s).uart_tx = s.uart_tx ++ new ∧
        tx_bytes new = (queued cfg s).tail := by
  intro n
  induction n with
  | zero =>
    intro s wf hc hb
    have hadv := advance_count wf (n := 1) (by omega)
    rw [hc] at hadv
    have hhead := (count_eq_zero_iff (advance_wf wf 1)).mp hadv
    simp only at hhead
    have hq1 : (queued cfg s).tail = [] := by
      have hl := queued_length cfg s
      rw [hc] at hl
      cases hq : queued cfg s with
      | nil => rfl
      | cons b q => rw [hq] at hl; simp at hl; simp [hl]
    refine ⟨fun k hk => ?_, ?_⟩
    · have : k = 0 := by omega
      subst this
      simpa [completions] using hb
    · simp only [completions, TxCplt_it hd hi wf _ (huart_of_instance cfg s), hhead.symm,
        if_true, hq1]
      refine ⟨?_, ?_, ?_, [], ?_, ?_⟩ <;> simp [tx_bytes]
  | succ m ih =>
    intro s wf hc hb
    have hadv := advance_count wf (n := 1) (by omega)
    rw [hc] at hadv
    have hwf1 := advance_wf wf 1
    have hne : (s.tail + 1) % cfg.LOG_RING_BUFFER_SIZE ≠ s.head := by
      intro h
      have := (count_eq_zero_iff hwf1).mpr (by simpa using h.symm)
      omega
    have hstep := TxCplt_it hd hi wf _ (huart_of_instance cfg s)
    rw [if_neg hne] at hstep
    have hwf' : WellFormed cfg (Logger_UART_TxCpltCallback cfg (huart_of cfg s) s) := by
      rw [hstep]; exact wf_congr hwf1 rfl rfl
    have hc' : count cfg (Logger_UART_TxCpltCallback cfg (huart_of cfg s) s) = m + 1 := by
      rw [hstep]
      simpa [count] using hadv
    have hq' : queued cfg (Logger_UART_TxCpltCallback cfg (huart_of cfg s) s)
        = (queued cfg s).tail := by
      rw [hstep, ← List.drop_one, ← advance_queued wf (n := 1) (by omega)]
      simp [queued, count]
    have hb' : (Logger_UART_TxCpltCallback cfg (huart_of cfg s) s).tx_busy = true := by
      rw [hstep]
    obtain ⟨h1, h2, h3, h4, new, h5, h6⟩ := ih _ hwf' hc' hb'
    refine ⟨fun k hk => ?_, ?_, ?_, ?_, ?_⟩
    · cases k with
      | zero => simpa [completions] using hb
      | succ j => simpa [completions] using h1 j (by omega)
    · simpa [completions] using h2
    · simpa [completions] using h3
    · rw [show completions cfg (m + 1 + 1) s
          = completions cfg (m + 1) (Logger_UART_TxCpltCallback cfg (huart_of cfg s) s) from rfl,
        h4, hstep]
    · refine ⟨⟨(s.tail + 1) % cfg.LOG_RING_BUFFER_SIZE, 1,
          [s.ring_buffer ((s.tail + 1) % cfg.LOG_RING_BUFFER_SIZE)]⟩ :: new, ?_, ?_⟩
      · rw [show completions cfg (m + 1 + 1) s
            = completions cfg (m + 1) (Logger_UART_TxCpltCallback cfg (huart_of cfg s) s)
            from rfl, h5, hstep]
        simp
      · have hcons := cons_tail_of_head hwf' (by omega)
        simp only [tx_bytes]
        rw [h6, ← hq']
        conv_rhs => rw [← hcons]
        rw [hstep]
        simp

theorem drain_eq_completions (cfg : Config) :
    ∀ (k fuel : Nat) (s : Logger), k ≤ fuel →
      (∀ j, j < k → (completions cfg j s).tx_busy = true) →
      (completions cfg k s).tx_busy = false →
      drain cfg fuel s = completions cfg k s := by
  intro k
  induction k with
  | zero =>
    intro fuel s _ _ h0
    cases fuel with
    | zero => rfl
    | succ f =>
      have : s.tx_busy = false := by simpa [completions] using h0
      simp [drain, completions, this]
  | succ k ih =>
    intro fuel s hk hj hlast
    cases fuel with
    | zero => omega
    | succ f =>
      have hb : s.tx_busy = true := by simpa [completions] using hj 0 (by omega)
      simp only [drain, hb, if_true, completions]
      apply ih f _ (by omega)
      · intro j hjk
        simpa [completions] using hj (j + 1) (by omega)
      · simpa [completions] using hlast


theorem write_all_spec (cfg : Config) (strings : List (List Nat)) :
    ∀ s : Logger, WellFormed cfg s →
      count cfg s + (concat_all strings).length ≤ cfg.LOG_RING_BUFFER_SIZE - 1 →
      WellFormed cfg (write_all cfg strings s) ∧
      queued cfg (write_all cfg strings s) = queued cfg s ++ concat_all strings ∧
      (write_all cfg strings s).tail = s.tail ∧
      (write_all cfg strings s).tx_busy = s.tx_busy ∧
      (write_all cfg strings s).uart_tx = s.uart_tx := by
  induction strings with
  | nil => intro s wf _; simp [write_all, concat_all, wf]
  | cons d ds ih =>
    intro s wf hlen
    simp only [concat_all, List.length_append] at hlen
    obtain ⟨wf1, hq1⟩ := ring_buffer_write_spec cfg d s wf
    have hf := ring_buffer_write_frame cfg d s
    rw [List.take_of_length_le (by omega)] at hq1
    have hc1 : count cfg (ring_buffer_write cfg d s) = count cfg s + (c_str d).length := by
      rw [← queued_length, hq1, List.length_append, queued_length]
    obtain ⟨wf2, hq2, ht2, hb2, hu2⟩ := ih _ wf1 (by omega)
    refine ⟨wf2, ?_, ?_, ?_, ?_⟩
    · simp only [write_all, concat_all, hq2, hq1, List.append_assoc]
    · simp only [write_all, ht2, hf.1]
    · simp only [write_all, hb2, hf.2.1]
    · simp only [write_all, hu2, hf.2.2.1]

/-! ## C3: FIFO order -/

/-- C3: in interrupt mode, from a well-formed state with an empty buffer and an
Idle engine, after a sequence of `ring_buffer_write` calls of total length at
most `N - 1`, `ring_buffer_send_next` and the completion handler invocations
that follow until the engine is Idle hand to the hardware exactly the
concatenation of the enqueued strings, in order; the engine ends Idle with
the buffer empty. -/
theorem C3_fifo_order (cfg : Config) (s0 : Logger) (strings : List (List Nat)) (fuel : Nat)
    (hd : cfg.LOG_USE_DMA = false) (hi : cfg.LOG_USE_IT = true)
    (wf : WellFormed cfg s0) (hempty : s0.head = s0.tail) (hidle : s0.tx_busy = false)
    (htotal : (concat_all strings).length ≤ cfg.LOG_RING_BUFFER_SIZE - 1)
    (hfuel : (concat_all strings).length ≤ fuel) :
    (drain cfg fuel (ring_buffer_send_next cfg (write_all cfg strings s0))).tx_busy = false ∧
    (drain cfg fuel (ring_buffer_send_next cfg (write_all cfg strings s0))).head
      = (drain cfg fuel (ring_buffer_send_next cfg (write_all cfg strings s0))).tail ∧
    ∃ new, (drain cfg fuel (ring_buffer_send_next cfg (write_all cfg strings s0))).uart_tx
        = s0.uart_tx ++ new ∧ tx_bytes new = concat_all strings := by
  have hc0 := (count_eq_zero_iff wf).mpr hempty
  obtain ⟨wf1, hq1, ht1, hb1, hu1⟩ := write_all_spec cfg strings s0 wf (by omega)
  rw [queued_of_empty wf hempty, List.nil_append] at hq1
  have hc1 : count cfg (write_all cfg strings s0) = (concat_all strings).length := by
    rw [← queued_length, hq1]
  rw [hidle] at hb1
  cases hn : (concat_all strings).length with
  | zero =>
    have hhead := (count_eq_zero_iff wf1).mp (hc1.trans hn)
    have hk : ring_buffer_send_next cfg (write_all cfg strings s0) = write_all cfg strings s0 := by
      simp [ring_buffer_send_next, hhead]
    have hdr : drain cfg fuel (write_all cfg strings s0) = write_all cfg strings s0 := by
      cases fuel <;> simp [drain, hb1]
    rw [hk, hdr]
    exact ⟨hb1, hhead, [], by simp [hu1], by
      rw [List.length_eq_zero.mp hn]; rfl⟩
  | succ n =>
    have hne : (write_all cfg strings s0).tail ≠ (write_all cfg strings s0).head := by
      intro h
      have := (count_eq_zero_iff wf1).mpr h.symm
      omega
    have hk := kick_it hd hi _ hb1 hne
    have wf2 : WellFormed cfg (ring_buffer_send_next cfg (write_all cfg strings s0)) := by
      rw [hk]; exact wf_congr wf1 rfl rfl
    have hc2 : count cfg (ring_buffer_send_next cfg (write_all cfg strings s0)) = n + 1 := by
      rw [hk, ← hn, ← hc1]; simp [count]
    have hq2 : queued cfg (ring_buffer_send_next cfg (write_all cfg strings s0))
        = concat_all strings := by
      rw [hk, ← hq1]; simp [queued, count]
    have hb2 : (ring_buffer_send_next cfg (write_all cfg strings s0)).tx_busy = true := by
      rw [hk]
    obtain ⟨h1, h2, h3, _, new, h5, h6⟩ := it_completions hd hi n _ wf2 hc2 hb2
    have hdr := drain_eq_completions cfg (n + 1) fuel _ (by omega)
      (fun j hj => h1 j (by omega)) h2
    rw [hdr]
    refine ⟨h2, h3, ⟨(write_all cfg strings s0).tail, 1,
      [(write_all cfg strings s0).ring_buffer (write_all cfg strings s0).tail]⟩ :: new, ?_, ?_⟩
    · rw [h5, hk]; simp [hu1]
    · have hcons := cons_tail_of_head wf1 (by omega)
      rw [hq2] at h6
      rw [hq1] at hcons
      simp [tx_bytes, h6, hcons]

/-- FIFO order on a ring of 4 slots with both cursors at 3: `"A"` then `"BC"`
wrap around the end of the array and are sent as `A`, `B`, `C`. -/
theorem C3_fifo_order_witness :
    ∃ new, (drain (config_it 4) 3 (ring_buffer_send_next (config_it 4)
        (write_all (config_it 4) [[65], [66, 67]] (at_cursors (config_it 4) 3 3)))).uart_tx
        = (at_cursors (config_it 4) 3 3).uart_tx ++ new ∧ tx_bytes new = [65, 66, 67] :=
  (C3_fifo_order (config_it 4) (at_cursors (config_it 4) 3 3) [[65], [66, 67]] 3 rfl rfl
    ⟨by decide, by decide, by decide, by decide⟩ rfl rfl (by decide) (by decide)).2.2


/-! ## C5: a kick that cannot start is a no-op -/

/-- C5: in every state in which `tx_busy` is true or `head == tail`,
`ring_buffer_send_next` returns the state as it found it: no transfer is
recorded and `head`, `tail`, `tx_busy` and the buffer contents are unchanged,
so what is queued stays queued. -/
theorem C5_kick_noop (cfg : Config) (s : Logger)
    (h : s.tx_busy = true ∨ s.head = s.tail) :
    ring_buffer_send_next cfg s = s ∧
    (ring_buffer_send_next cfg s).uart_tx = s.uart_tx ∧
    queued cfg (ring_buffer_send_next cfg s) = queued cfg s := by
  have hs : ring_buffer_send_next cfg s = s := by
    unfold ring_buffer_send_next
    rw [if_pos]
    rcases h with h | h
    · exact Or.inl h
    · exact Or.inr h.symm
  rw [hs]
  exact ⟨rfl, rfl, rfl⟩

/-- A kick while a transfer is in flight (two of three slots queued, engine
Sending) starts nothing. -/
theorem C5_kick_noop_witness :
    (ring_buffer_send_next (config_it 4) { at_cursors (config_it 4) 2 0 with tx_busy := true }).uart_tx
      = [] :=
  (C5_kick_noop (config_it 4) { at_cursors (config_it 4) 2 0 with tx_busy := true }
    (Or.inl rfl)).2.1

/-! ## C6: drain to empty in interrupt mode -/

/-- C6: in interrupt mode, for every well-formed state with `p ≥ 1` queued
bytes, once the kick has been called the engine is Sending (one transfer is
started if the engine was Idle) and, with no further enqueue, after exactly
`p` completion notifications the buffer is empty and the engine Idle, while
after every smaller number of completions the engine is still Sending; `p` is
within the bound `ceil(p / 1)`. -/
theorem C6_drain_to_empty (cfg : Config) (s : Logger) (p : Nat)
    (hd : cfg.LOG_USE_DMA = false) (hi : cfg.LOG_USE_IT = true)
    (wf : WellFormed cfg s) (hc : count cfg s = p) (hp : 1 ≤ p) :
    (ring_buffer_send_next cfg s).tx_busy = true ∧
    (s.tx_busy = false →
      (ring_buffer_send_next cfg s).uart_tx.length = s.uart_tx.length + 1) ∧
    (completions cfg p (ring_buffer_send_next cfg s)).head
      = (completions cfg p (ring_buffer_send_next cfg s)).tail ∧
    (completions cfg p (ring_buffer_send_next cfg s)).tx_busy = false ∧
    (∀ k, k < p → (completions cfg k (ring_buffer_send_next cfg s)).tx_busy = true) ∧
    p ≤ completion_bound p 1 := by
  have hne : s.tail ≠ s.head := by
    intro h
    have := (count_eq_zero_iff wf).mpr h.symm
    omega
  obtain ⟨n, rfl⟩ : ∃ n, p = n + 1 := ⟨p - 1, by omega⟩
  have hk : (ring_buffer_send_next cfg s).tx_busy = true ∧
      (ring_buffer_send_next cfg s).head = s.head ∧
      (ring_buffer_send_next cfg s).tail = s.tail := by
    cases hb : s.tx_busy
    · rw [kick_it hd hi s hb hne]
      exact ⟨rfl, rfl, rfl⟩
    · rw [kick_busy cfg s hb]
      exact ⟨hb, rfl, rfl⟩
  have wf2 : WellFormed cfg (ring_buffer_send_next cfg s) := wf_congr wf hk.2.1 hk.2.2
  have hc2 : count cfg (ring_buffer_send_next cfg s) = n + 1 := by
    rw [count_congr hk.2.1 hk.2.2, hc]
  obtain ⟨h1, h2, h3, _, _⟩ := it_completions hd hi n _ wf2 hc2 hk.1
  refine ⟨hk.1, fun hb => ?_, h3, h2, fun k hk => h1 k (by omega), ?_⟩
  · rw [kick_it hd hi s hb hne]; simp
  · simp [completion_bound]

/-- Three bytes queued across the end of a ring of 4 slots (`tail = 2`,
`head = 1`) are drained by exactly three completions. -/
theorem C6_drain_to_empty_witness :
    (completions (config_it 4) 3
        (ring_buffer_send_next (config_it 4) (at_cursors (config_it 4) 1 2))).tx_busy = false ∧
    (completions (config_it 4) 2
        (ring_buffer_send_next (config_it 4) (at_cursors (config_it 4) 1 2))).tx_busy = true :=
  have h := C6_drain_to_empty (config_it 4) (at_cursors (config_it 4) 1 2) 3 rfl rfl
    ⟨by decide, by decide, by decide, by decide⟩ (by decide) (by decide)
  ⟨h.2.2.2.1, h.2.2.2.2.1 2 (by decide)⟩

/-! ## C7: filter correctness -/

/-- C7: `Log` changes anything (a sink write, a formatting call, `head`,
`tail`, `tx_busy` or the buffer contents) only if `logging_enabled` is non-zero
and `level <= current_level`; when logging is disabled or
`level > current_level` it returns the whole state unchanged, in particular
the formatting counter and the records of sink writes; after `Log_Disable`
this holds for every level. -/
theorem C7_filter (cfg : Config) (fr_write level : Nat) (text : List Nat) (s : Logger) :
    (s.logging_enabled = 0 ∨ level > s.current_level →
      Log cfg fr_write level text s = s) ∧
    ((Log cfg fr_write level text s).uart_tx ≠ s.uart_tx ∨
      (Log cfg fr_write level text s).uart_blocking ≠ s.uart_blocking ∨
      (Log cfg fr_write level text s).sd_calls ≠ s.sd_calls ∨
      (Log cfg fr_write level text s).vsnprintf_calls ≠ s.vsnprintf_calls ∨
      (Log cfg fr_write level text s).head ≠ s.head ∨
      (Log cfg fr_write level text s).tail ≠ s.tail ∨
      (Log cfg fr_write level text s).tx_busy ≠ s.tx_busy ∨
      (Log cfg fr_write level text s).ring_buffer ≠ s.ring_buffer →
      s.logging_enabled ≠ 0 ∧ level ≤ s.current_level) ∧
    (∀ l, Log cfg fr_write l text (Log_Disable s) = Log_Disable s) := by
  have h1 : s.logging_enabled = 0 ∨ level > s.current_level →
      Log cfg fr_write level text s = s := by
    intro h
    unfold Log
    rw [if_pos h]
  refine ⟨h1, ?_, ?_⟩
  · intro hchg
    by_contra hnot
    have hf : s.logging_enabled = 0 ∨ level > s.current_level := by
      by_cases he : s.logging_enabled = 0
      · exact Or.inl he
      · right
        by_contra hl
        exact hnot ⟨he, by omega⟩
    rw [h1 hf] at hchg
    simp at hchg
  · intro l
    unfold Log
    exact if_pos (Or.inl rfl)

/-- A message at level 3 with the threshold at 2 leaves the start-up state
as it is. -/
theorem C7_filter_witness :
    (Log (config_it 8) 0 3 [65] (boot (config_it 8))).vsnprintf_calls = 0 ∧
    (Log (config_it 8) 0 3 [65] (boot (config_it 8))).uart_tx = [] := by
  have h := (C7_filter (config_it 8) 0 3 [65] (boot (config_it 8))).1 (Or.inr (by decide))
  rw [h]
  exact ⟨rfl, rfl⟩


/-! ## C10: one step of the completion handler -/

theorem kick_async {cfg : Config} (hmode : cfg.LOG_USE_DMA = true ∨ cfg.LOG_USE_IT = true)
    (s : Logger) (hb : s.tx_busy = false) (hne : s.tail ≠ s.head) :
    ring_buffer_send_next cfg s
      = { s with tx_busy := true,
                 uart_tx := s.uart_tx ++
                   [⟨s.tail, if cfg.LOG_USE_DMA then send_len cfg s else 1,
                     mem_read s.ring_buffer s.tail
                       (if cfg.LOG_USE_DMA then send_len cfg s else 1)⟩] } := by
  by_cases hd : cfg.LOG_USE_DMA = true
  · simp [ring_buffer_send_next, hd, hb, hne, HAL_UART_Transmit_DMA]
  · have hi : cfg.LOG_USE_IT = true := by
      rcases hmode with h | h
      · exact absurd h hd
      · exact h
    simp [ring_buffer_send_next, hd, hi, hb, hne, HAL_UART_Transmit_IT]

theorem TxCplt_async {cfg : Config} (hmode : cfg.LOG_USE_DMA = true ∨ cfg.LOG_USE_IT = true)
    {s : Logger} (wf : WellFormed cfg s) (huart : UART_HandleTypeDef)
    (hinst : huart.Instance = cfg.uart_instance) :
    Logger_UART_TxCpltCallback cfg huart s
      = ring_buffer_send_next cfg
          { s with tail := (s.tail + (if cfg.LOG_USE_DMA then huart.TxXferSize else 1))
                     % cfg.LOG_RING_BUFFER_SIZE,
                   tx_busy := false } := by
  have h0 := wf.pos
  have hu := fun x => u16_mod_eq (x := x) (show 0 < cfg.LOG_RING_BUFFER_SIZE by omega) wf.le_u16
  by_cases hd : cfg.LOG_USE_DMA = true
  · simp [Logger_UART_TxCpltCallback, hinst, TxCplt_restart, TxCplt_advance_tail, hd, hu]
  · have hi : cfg.LOG_USE_IT = true := by
      rcases hmode with h | h
      · exact absurd h hd
      · exact h
    simp [Logger_UART_TxCpltCallback, hinst, TxCplt_restart, TxCplt_advance_tail, hd, hi, hu]

/-- C10: for every well-formed state and every completion on the logger's UART
of a transfer of `n` bytes (`n = 1` in interrupt mode, `n = TxXferSize` in DMA
mode), `Logger_UART_TxCpltCallback` sets `tail` to `(tail + n) mod N`, leaves
`head` and the buffer contents unchanged, and ends Sending with exactly one new
transfer, starting at the new `tail`, if bytes remain queued, and Idle with no
transfer started if the buffer is now empty. -/
theorem C10_completion_step (cfg : Config) (s : Logger) (huart : UART_HandleTypeDef)
    (hmode : cfg.LOG_USE_DMA = true ∨ cfg.LOG_USE_IT = true)
    (wf : WellFormed cfg s) (hinst : huart.Instance = cfg.uart_instance) :
    (Logger_UART_TxCpltCallback cfg huart s).tail
      = (s.tail + (if cfg.LOG_USE_DMA then huart.TxXferSize else 1))
          % cfg.LOG_RING_BUFFER_SIZE ∧
    (Logger_UART_TxCpltCallback cfg huart s).head = s.head ∧
    (Logger_UART_TxCpltCallback cfg huart s).ring_buffer = s.ring_buffer ∧
    ((Logger_UART_TxCpltCallback cfg huart s).head ≠ (Logger_UART_TxCpltCallback cfg huart s).tail →
      (Logger_UART_TxCpltCallback cfg huart s).tx_busy = true ∧
      ∃ t, (Logger_UART_TxCpltCallback cfg huart s).uart_tx = s.uart_tx ++ [t] ∧
        t.ptr = (Logger_UART_TxCpltCallback cfg huart s).tail) ∧
    ((Logger_UART_TxCpltCallback cfg huart s).head = (Logger_UART_TxCpltCallback cfg huart s).tail →
      (Logger_UART_TxCpltCallback cfg huart s).tx_busy = false ∧
      (Logger_UART_TxCpltCallback cfg huart s).uart_tx = s.uart_tx) := by
  rw [TxCplt_async hmode wf huart hinst]
  by_cases he : (s.tail + (if cfg.LOG_USE_DMA then huart.TxXferSize else 1))
      % cfg.LOG_RING_BUFFER_SIZE = s.head
  · have hk : ring_buffer_send_next cfg
        { s with tail := (s.tail + (if cfg.LOG_USE_DMA then huart.TxXferSize else 1))
                     % cfg.LOG_RING_BUFFER_SIZE,
                 tx_busy := false }
        = { s with tail := (s.tail + (if cfg.LOG_USE_DMA then huart.TxXferSize else 1))
                     % cfg.LOG_RING_BUFFER_SIZE,
                   tx_busy := false } := by
      simp [ring_buffer_send_next, he]
    rw [hk]
    simp [he]
  · rw [kick_async hmode _ rfl he]
    refine ⟨rfl, rfl, rfl, fun _ => ⟨rfl, _, rfl, rfl⟩, fun h => absurd h.symm he⟩

/-- The handler on a ring of 4 slots in DMA mode, with `tail = 2`, `head = 1`
and a completed transfer of 2 bytes: `tail` wraps to 0 and a new transfer
starts there. -/
theorem C10_completion_step_witness :
    (Logger_UART_TxCpltCallback (config_dma 4) ⟨1, 2⟩
        { at_cursors (config_dma 4) 1 2 with tx_busy := true }).tail = 0 ∧
    (Logger_UART_TxCpltCallback (config_dma 4) ⟨1, 2⟩
        { at_cursors (config_dma 4) 1 2 with tx_busy := true }).tx_busy = true :=
  have h := C10_completion_step (config_dma 4)
    { at_cursors (config_dma 4) 1 2 with tx_busy := true } ⟨1, 2⟩ (Or.inl rfl)
    ⟨by decide, by decide, by decide, by decide⟩ rfl
  ⟨h.1, (h.2.2.2.1 (by decide)).1⟩


/-! ## The invariant of the engine -/

theorem send_len_dma {cfg : Config} {s : Logger} (wf : WellFormed cfg s)
    (hd : cfg.LOG_USE_DMA = true) :
    send_len cfg s = if s.tail ≤ s.head then s.head - s.tail
      else cfg.LOG_RING_BUFFER_SIZE - s.tail := by
  have h1 := wf.head_lt
  have h2 := wf.tail_lt
  have h3 := wf.le_u16
  simp only [send_len, hd, if_true, u16i, ge_iff_le]
  split_ifs with h
  · omega
  · omega

theorem send_len_le_count {cfg : Config} {s : Logger} (wf : WellFormed cfg s)
    (hd : cfg.LOG_USE_DMA = true) : send_len cfg s ≤ count cfg s := by
  have h1 := wf.head_lt
  have h2 := wf.tail_lt
  rw [send_len_dma wf hd, count_eq wf]
  split_ifs <;> omega

theorem inv_kick_idle (cfg : Config) {x : Logger} (wf : WellFormed cfg x)
    (hb : x.tx_busy = false) {k : Nat} (hk : k = x.uart_tx.length) :
    Inv cfg { logger := ring_buffer_send_next cfg x, completed := k, in_handler := false } := by
  subst hk
  by_cases he : x.tail = x.head
  · have hs : ring_buffer_send_next cfg x = x := by simp [ring_buffer_send_next, he]
    rw [hs]
    exact ⟨wf, le_refl _, by simp, fun h => absurd h (lt_irrefl _), fun h => by simp at h,
      fun _ h => by simp [hb] at h⟩
  · by_cases hmode : cfg.LOG_USE_DMA = true ∨ cfg.LOG_USE_IT = true
    · rw [kick_async hmode x hb he]
      refine ⟨wf_congr wf rfl rfl, by simp, by simp, fun _ => ⟨rfl, rfl, ?_⟩,
        fun h => by simp at h, fun _ _ => Or.inl (by simp)⟩
      have hc : 1 ≤ count cfg x := by
        have := mt (count_eq_zero_iff wf).mp (fun h => he h.symm)
        omega
      simp only [advance_amount, completing_huart, List.getElem?_concat_length]
      by_cases hd : cfg.LOG_USE_DMA = true
      · simpa [hd, count] using send_len_le_count wf hd
      · have hi : cfg.LOG_USE_IT = true := by
          rcases hmode with h | h
          · exact absurd h hd
          · exact h
        simpa [hd, hi, count] using hc
    · have hs : ring_buffer_send_next cfg x = { x with tx_busy := true } := by
        have hd : cfg.LOG_USE_DMA = false := by
          cases h : cfg.LOG_USE_DMA
          · rfl
          · exact absurd (Or.inl h) hmode
        have hi : cfg.LOG_USE_IT = false := by
          cases h : cfg.LOG_USE_IT
          · rfl
          · exact absurd (Or.inr h) hmode
        simp [ring_buffer_send_next, hb, he, hd, hi]
      rw [hs]
      exact ⟨wf_congr wf rfl rfl, le_refl _, by simp, fun h => absurd h (lt_irrefl _),
        fun h => by simp at h, fun hm _ => absurd hm hmode⟩

theorem inv_start (cfg : Config) (fr_open : Nat) (h2 : 0 < cfg.LOG_RING_BUFFER_SIZE)
    (h16 : cfg.LOG_RING_BUFFER_SIZE ≤ 65536) : Inv cfg (System.start cfg fr_open) := by
  have hl : (Log_Init cfg fr_open (boot cfg)).head = 0 ∧
      (Log_Init cfg fr_open (boot cfg)).tail = 0 ∧
      (Log_Init cfg fr_open (boot cfg)).tx_busy = false ∧
      (Log_Init cfg fr_open (boot cfg)).uart_tx = [] := by
    unfold Log_Init boot
    split_ifs <;> simp
  obtain ⟨hh, ht, hb, hu⟩ := hl
  refine ⟨⟨h2, h16, ?_, ?_⟩, ?_, ?_, ?_, ?_, ?_⟩
  · show (Log_Init cfg fr_open (boot cfg)).head < _
    rw [hh]; omega
  · show (Log_Init cfg fr_open (boot cfg)).tail < _
    rw [ht]; omega
  · simp [System.start]
  · simp [System.start, hu]
  · intro h; simp [System.start, hu] at h
  · intro h; simp [System.start] at h
  · intro _ h; simp [System.start, hb] at h

theorem inv_write {cfg : Config} {sys : System} (inv : Inv cfg sys) (data : List Nat) :
    Inv cfg { sys with logger := ring_buffer_write cfg data sys.logger } := by
  obtain ⟨wf', _⟩ := ring_buffer_write_spec cfg data sys.logger inv.wf
  have hc := ring_buffer_write_count data inv.wf
  have hlt := count_lt inv.wf
  obtain ⟨_, hb, hu, _⟩ := ring_buffer_write_frame cfg data sys.logger
  refine ⟨wf', ?_, ?_, ?_, ?_, ?_⟩
  · simpa [hu] using inv.completed_le
  · simpa [hu] using inv.single
  · intro h
    simp only [hu] at h
    obtain ⟨h1, h2, h3⟩ := inv.flight h
    refine ⟨by simpa [hb] using h1, h2, ?_⟩
    simp only [advance_amount, completing_huart, hu] at h3 ⊢
    simp only [hc]
    omega
  · intro h
    obtain ⟨h1, h2⟩ := inv.handler h
    exact ⟨by simpa [hb] using h1, by simpa [hu] using h2⟩
  · intro hm h
    simp only [hb, hu] at h ⊢
    exact inv.busy hm h

theorem inv_kick {cfg : Config} {sys : System} (inv : Inv cfg sys) :
    Inv cfg { sys with logger := ring_buffer_send_next cfg sys.logger } := by
  by_cases hn : sys.logger.tx_busy = true ∨ sys.logger.tail = sys.logger.head
  · have hs : ring_buffer_send_next cfg sys.logger = sys.logger := by
      simp [ring_buffer_send_next, hn]
    rw [hs]
    exact inv
  · have hb : sys.logger.tx_busy = false := by
      cases h : sys.logger.tx_busy
      · rfl
      · exact absurd (Or.inl h) hn
    have hk : sys.completed = sys.logger.uart_tx.length := by
      by_contra hne
      have hlt : sys.completed < sys.logger.uart_tx.length :=
        lt_of_le_of_ne inv.completed_le hne
      have := (inv.flight hlt).1
      simp [hb] at this
    have hh : sys.in_handler = false := by
      cases h : sys.in_handler
      · rfl
      · have := (inv.handler h).1
        simp [hb] at this
    have := inv_kick_idle cfg inv.wf hb hk
    rw [← hh] at this
    exact this

theorem inv_cplt_restart {cfg : Config} {sys : System} (inv : Inv cfg sys)
    (hh : sys.in_handler = true) :
    Inv cfg { sys with logger := TxCplt_restart cfg sys.logger, in_handler := false } := by
  have hk := (inv.handler hh).2
  exact inv_kick_idle cfg (x := { sys.logger with tx_busy := false })
    (wf_congr inv.wf rfl rfl) rfl hk

theorem TxCplt_advance_tail_eq {cfg : Config} {sys : System} (inv : Inv cfg sys) :
    TxCplt_advance_tail cfg (completing_huart cfg sys) sys.logger
      = { sys.logger with
          tail := (sys.logger.tail + advance_amount cfg sys) % cfg.LOG_RING_BUFFER_SIZE } := by
  have h0 := inv.wf.pos
  have hu := fun x => u16_mod_eq (x := x) (show 0 < cfg.LOG_RING_BUFFER_SIZE by omega)
    inv.wf.le_u16
  by_cases hd : cfg.LOG_USE_DMA = true
  · simp [TxCplt_advance_tail, advance_amount, hd, hu]
  · by_cases hi : cfg.LOG_USE_IT = true
    · simp [TxCplt_advance_tail, advance_amount, hd, hi, hu]
    · simp [TxCplt_advance_tail, advance_amount, hd, hi, Nat.mod_eq_of_lt inv.wf.tail_lt]

theorem inv_cplt_advance_tail {cfg : Config} {sys : System} (inv : Inv cfg sys)
    (hlt : sys.completed < sys.logger.uart_tx.length) :
    Inv cfg { logger := TxCplt_advance_tail cfg (completing_huart cfg sys) sys.logger
              completed := sys.completed + 1
              in_handler := true } ∧
    advance_amount cfg sys ≤ count cfg sys.logger ∧
    count cfg (TxCplt_advance_tail cfg (completing_huart cfg sys) sys.logger)
      = count cfg sys.logger - advance_amount cfg sys := by
  obtain ⟨hb, _, hamt⟩ := inv.flight hlt
  have hsingle := inv.single
  rw [TxCplt_advance_tail_eq inv]
  refine ⟨⟨advance_wf inv.wf _, ?_, ?_, ?_, ?_, ?_⟩, hamt, advance_count inv.wf hamt⟩
  · simpa using hlt
  · simp only; omega
  · intro h
    simp only at h
    omega
  · intro _
    exact ⟨hb, by simp only; omega⟩
  · intro _ _
    exact Or.inr rfl


/-! ## C4: single flight -/

theorem kick_idle_cases {cfg : Config} (hmode : cfg.LOG_USE_DMA = true ∨ cfg.LOG_USE_IT = true)
    (x : Logger) (hb : x.tx_busy = false) :
    ring_buffer_send_next cfg x = x ∨
    ((ring_buffer_send_next cfg x).tx_busy = true ∧
      (ring_buffer_send_next cfg x).uart_tx.length = x.uart_tx.length + 1) := by
  by_cases he : x.tail = x.head
  · left
    simp [ring_buffer_send_next, he]
  · right
    rw [kick_async hmode x hb he]
    simp

theorem TxCplt_of_instance (cfg : Config) (huart : UART_HandleTypeDef) (s : Logger)
    (h : huart.Instance = cfg.uart_instance) :
    Logger_UART_TxCpltCallback cfg huart s
      = TxCplt_restart cfg (TxCplt_advance_tail cfg huart s) := by
  simp [Logger_UART_TxCpltCallback, h]

theorem kick_twice (cfg : Config) (s : Logger) :
    ring_buffer_send_next cfg (ring_buffer_send_next cfg s) = ring_buffer_send_next cfg s := by
  by_cases hn : s.tx_busy = true ∨ s.tail = s.head
  · have hs : ring_buffer_send_next cfg s = s := by simp [ring_buffer_send_next, hn]
    rw [hs, hs]
  · have hb : (ring_buffer_send_next cfg s).tx_busy = true := by
      unfold ring_buffer_send_next HAL_UART_Transmit_DMA HAL_UART_Transmit_IT
      rw [if_neg hn]
      split_ifs <;> rfl
    exact kick_busy cfg _ hb

theorem kick_length_le (cfg : Config) (s : Logger) :
    (ring_buffer_send_next cfg s).uart_tx.length ≤ s.uart_tx.length + 1 := by
  unfold ring_buffer_send_next HAL_UART_Transmit_DMA HAL_UART_Transmit_IT
  split_ifs <;> simp

theorem TxCplt_advance_tail_frame (cfg : Config) (huart : UART_HandleTypeDef) (s : Logger) :
    (TxCplt_advance_tail cfg huart s).uart_tx = s.uart_tx ∧
    (TxCplt_advance_tail cfg huart s).tx_busy = s.tx_busy ∧
    (TxCplt_advance_tail cfg huart s).head = s.head ∧
    (TxCplt_advance_tail cfg huart s).ring_buffer = s.ring_buffer := by
  unfold TxCplt_advance_tail
  split_ifs <;> exact ⟨rfl, rfl, rfl, rfl⟩

theorem single_flight_kick_idle {cfg : Config}
    (hmode : cfg.LOG_USE_DMA = true ∨ cfg.LOG_USE_IT = true)
    (x : Logger) (hb : x.tx_busy = false) (b : Bool) :
    SingleFlight { logger := ring_buffer_send_next cfg x, completed := x.uart_tx.length,
                   in_handler := b } := by
  rcases kick_idle_cases hmode x hb with h | ⟨h1, h2⟩
  · rw [h]
    exact ⟨le_refl _, by simp, by simp [hb]⟩
  · exact ⟨by simp [h2], by simp [h2], by simp [h1, h2]⟩

theorem single_flight_call {cfg : Config}
    (hmode : cfg.LOG_USE_DMA = true ∨ cfg.LOG_USE_IT = true) {sys : System}
    (h : SingleFlight sys) (c : Call) : SingleFlight (call cfg sys c) := by
  obtain ⟨h1, h2, h3⟩ := h
  cases c with
  | enqueue data =>
    obtain ⟨_, hb, hu, _⟩ := ring_buffer_write_frame cfg data sys.logger
    simp only [call, SingleFlight, hb, hu]
    exact ⟨h1, h2, h3⟩
  | kick =>
    simp only [call]
    by_cases hn : sys.logger.tx_busy = true ∨ sys.logger.tail = sys.logger.head
    · have hs : ring_buffer_send_next cfg sys.logger = sys.logger := by
        simp [ring_buffer_send_next, hn]
      rw [hs]
      exact ⟨h1, h2, h3⟩
    · have hb : sys.logger.tx_busy = false := by
        cases hx : sys.logger.tx_busy
        · rfl
        · exact absurd (Or.inl hx) hn
      have hk : sys.completed = sys.logger.uart_tx.length := by
        by_contra hne
        have := h3.mp (lt_of_le_of_ne h1 hne)
        simp [hb] at this
      have := single_flight_kick_idle hmode sys.logger hb sys.in_handler
      rw [← hk] at this
      exact this
  | complete =>
    simp only [call]
    split_ifs with hlt
    · have hk : sys.completed + 1 = sys.logger.uart_tx.length := by omega
      obtain ⟨hu, _, _, _⟩ := TxCplt_advance_tail_frame cfg (completing_huart cfg sys) sys.logger
      have := single_flight_kick_idle hmode
        { TxCplt_advance_tail cfg (completing_huart cfg sys) sys.logger with tx_busy := false }
        rfl sys.in_handler
      have e : sys.completed + 1
          = ({ TxCplt_advance_tail cfg (completing_huart cfg sys) sys.logger with
               tx_busy := false } : Logger).uart_tx.length := by
        simp only [hu, hk]
      rw [TxCplt_of_instance cfg _ _ rfl, e]
      exact this
    · exact ⟨h1, h2, h3⟩

theorem single_flight_run {cfg : Config}
    (hmode : cfg.LOG_USE_DMA = true ∨ cfg.LOG_USE_IT = true) (calls : List Call) :
    ∀ sys : System, SingleFlight sys → SingleFlight (run cfg calls sys) := by
  induction calls with
  | nil => intro sys h; exact h
  | cons c cs ih => intro sys h; exact ih _ (single_flight_call hmode h c)

theorem single_flight_start (cfg : Config) (fr_open : Nat) :
    SingleFlight (System.start cfg fr_open) := by
  have hl : (Log_Init cfg fr_open (boot cfg)).tx_busy = false ∧
      (Log_Init cfg fr_open (boot cfg)).uart_tx = [] := by
    unfold Log_Init boot
    split_ifs <;> simp
  simp [SingleFlight, System.start, hl.1, hl.2]

/-- With neither `LOG_USE_DMA` nor `LOG_USE_IT` set, the calls that have a
call site leave a system in which no transfer was ever started as it is: the
only such call is the completion, and no transfer is in flight. -/
theorem run_without_async (cfg : Config)
    (hmode : ¬(cfg.LOG_USE_DMA = true ∨ cfg.LOG_USE_IT = true)) (calls : List Call) :
    ∀ sys : System, (∀ c ∈ calls, Call.compiled cfg c = true) →
      sys.logger.uart_tx = [] → run cfg calls sys = sys := by
  have hoff : (cfg.LOG_USE_DMA || cfg.LOG_USE_IT) = false := by
    cases hd : cfg.LOG_USE_DMA <;> cases hi : cfg.LOG_USE_IT <;> simp_all
  induction calls with
  | nil => intro sys _ _; rfl
  | cons c cs ih =>
    intro sys hcalls hu
    have hc := hcalls c (List.mem_cons_self c cs)
    have hstep : call cfg sys c = sys := by
      cases c with
      | enqueue data => simp [Call.compiled, hoff] at hc
      | kick => simp [Call.compiled, hoff] at hc
      | complete => simp [call, hu]
    simp only [run, hstep]
    exact ih sys (fun c hmem => hcalls c (List.mem_cons_of_mem _ hmem)) hu

/-- C4: in every state reached from `Log_Init` at program start by any sequence
of enqueue, kick and completion-handler calls that the configuration has a
call site for, a completion taking place only for a transfer in flight, the
number of transfers started and not yet completed is at most 1 and is 1
exactly when `tx_busy` is true; and, in every state, a second kick right after
a kick changes nothing, so two consecutive kicks start at most one
transfer. -/
theorem C4_single_flight (cfg : Config) (fr_open : Nat) (calls : List Call)
    (hcalls : ∀ c ∈ calls, Call.compiled cfg c = true) :
    in_flight (run cfg calls (System.start cfg fr_open)) ≤ 1 ∧
    (in_flight (run cfg calls (System.start cfg fr_open)) = 1 ↔
      (run cfg calls (System.start cfg fr_open)).logger.tx_busy = true) ∧
    (run cfg calls (System.start cfg fr_open)).completed
      ≤ (run cfg calls (System.start cfg fr_open)).logger.uart_tx.length ∧
    (∀ s : Logger,
      ring_buffer_send_next cfg (ring_buffer_send_next cfg s) = ring_buffer_send_next cfg s ∧
      (ring_buffer_send_next cfg (ring_buffer_send_next cfg s)).uart_tx.length
        ≤ s.uart_tx.length + 1) := by
  have hflight : SingleFlight (run cfg calls (System.start cfg fr_open)) := by
    by_cases hmode : cfg.LOG_USE_DMA = true ∨ cfg.LOG_USE_IT = true
    · exact single_flight_run hmode calls _ (single_flight_start cfg fr_open)
    · have hu : (System.start cfg fr_open).logger.uart_tx = [] := by
        unfold System.start Log_Init boot
        split_ifs <;> rfl
      rw [run_without_async cfg hmode calls _ hcalls hu]
      exact single_flight_start cfg fr_open
  obtain ⟨h1, h2, h3⟩ := hflight
  refine ⟨?_, ?_, h1, fun s => ⟨kick_twice cfg s, ?_⟩⟩
  · unfold in_flight; omega
  · rw [← h3]; unfold in_flight; omega
  · rw [kick_twice]; exact kick_length_le cfg s

/-- Single flight in interrupt mode after `"AB"` is enqueued, the engine is
kicked twice and one completion arrives: one transfer is in flight and
`tx_busy` is set. -/
theorem C4_single_flight_witness :
    in_flight (run (config_it 4) [Call.enqueue [65, 66], Call.kick, Call.kick, Call.complete]
      (System.start (config_it 4) 0)) = 1 ∧
    (run (config_it 4) [Call.enqueue [65, 66], Call.kick, Call.kick, Call.complete]
      (System.start (config_it 4) 0)).logger.tx_busy = true :=
  have h := C4_single_flight (config_it 4) 0
    [Call.enqueue [65, 66], Call.kick, Call.kick, Call.complete] (by decide)
  ⟨h.2.1.mpr (by decide), by decide⟩


/-! ## C8: cursor consistency under interleaving -/

theorem inv_atom {cfg : Config} {sys : System} (inv : Inv cfg sys) (a : Atom) :
    Inv cfg (atom cfg sys a) := by
  cases a with
  | write_byte c => exact inv_write inv [c]
  | kick => exact inv_kick inv
  | cplt_advance_tail =>
    simp only [atom]
    split_ifs with h
    · exact (inv_cplt_advance_tail inv h.2).1
    · exact inv
  | cplt_restart =>
    simp only [atom]
    split_ifs with h
    · exact inv_cplt_restart inv h
    · exact inv

theorem inv_interleave {cfg : Config} (atoms : List Atom) :
    ∀ sys : System, Inv cfg sys → Inv cfg (interleave cfg atoms sys) := by
  induction atoms with
  | nil => intro sys h; exact h
  | cons a as ih => intro sys h; exact ih _ (inv_atom h a)

/-- C8 (amended): for a ring of 1 to 65536 slots (what the `uint16_t`
cursors can address), in every state reached from `Log_Init` at program start
by any interleaving, at critical-section granularity, of `ring_buffer_write`
iterations, kicks and the two critical sections of the completion handler (a
completion taking place only for a transfer in flight, with the length it was
started with), `head` and `tail` are in `[0, N)`, the queued count is at most
`N - 1`, and a completion that can take place advances `tail` by no more than
the queued count: the count decreases by exactly the advance, so `tail` does
not pass `head`. -/
theorem C8_cursor_consistency (cfg : Config) (fr_open : Nat) (atoms : List Atom)
    (hpos : 0 < cfg.LOG_RING_BUFFER_SIZE) (h16 : cfg.LOG_RING_BUFFER_SIZE ≤ 65536) :
    (interleave cfg atoms (System.start cfg fr_open)).logger.head < cfg.LOG_RING_BUFFER_SIZE ∧
    (interleave cfg atoms (System.start cfg fr_open)).logger.tail < cfg.LOG_RING_BUFFER_SIZE ∧
    count cfg (interleave cfg atoms (System.start cfg fr_open)).logger
      ≤ cfg.LOG_RING_BUFFER_SIZE - 1 ∧
    ((interleave cfg atoms (System.start cfg fr_open)).in_handler = false →
      (interleave cfg atoms (System.start cfg fr_open)).completed
        < (interleave cfg atoms (System.start cfg fr_open)).logger.uart_tx.length →
      advance_amount cfg (interleave cfg atoms (System.start cfg fr_open))
        ≤ count cfg (interleave cfg atoms (System.start cfg fr_open)).logger ∧
      count cfg (atom cfg (interleave cfg atoms (System.start cfg fr_open))
          Atom.cplt_advance_tail).logger
        = count cfg (interleave cfg atoms (System.start cfg fr_open)).logger
          - advance_amount cfg (interleave cfg atoms (System.start cfg fr_open))) := by
  have inv := inv_interleave atoms _ (inv_start cfg fr_open hpos h16)
  have hc := count_lt inv.wf
  refine ⟨inv.wf.head_lt, inv.wf.tail_lt, by omega, fun hh hlt => ?_⟩
  obtain ⟨_, h1, h2⟩ := inv_cplt_advance_tail inv hlt
  refine ⟨h1, ?_⟩
  simp only [atom, hh, hlt, and_self, if_true]
  exact h2

/-- Cursor consistency on a ring of 4 slots in DMA mode: after `"ABC"` is
written byte by byte, a kick, and the first critical section of the handler,
a fourth byte is written before the handler's second critical section. -/
theorem C8_cursor_consistency_witness :
    count (config_dma 4)
      (interleave (config_dma 4)
        [Atom.write_byte 65, Atom.write_byte 66, Atom.write_byte 67, Atom.kick,
          Atom.cplt_advance_tail, Atom.write_byte 68, Atom.cplt_restart]
        (System.start (config_dma 4) 0)).logger ≤ 4 - 1 :=
  (C8_cursor_consistency (config_dma 4) 0
    [Atom.write_byte 65, Atom.write_byte 66, Atom.write_byte 67, Atom.kick,
      Atom.cplt_advance_tail, Atom.write_byte 68, Atom.cplt_restart]
    (by decide) (by decide)).2.2.1


theorem interleave_append (cfg : Config) (as bs : List Atom) :
    ∀ sys : System, interleave cfg (as ++ bs) sys = interleave cfg bs (interleave cfg as sys) := by
  induction as with
  | nil => intro sys; rfl
  | cons a as ih => intro sys; exact ih _


/-! ### A ring declared wider than the cursors -/

theorem snapshot_write_byte (cfg : Config) {sys : System} {h t : Nat} {b : Bool}
    {lens : List Nat} {k : Nat} {m : Bool} (snap : Snapshot sys h t b lens k m) (c : Nat)
    (hc : c ≠ 0) (hne : u16 ((h + 1) % cfg.LOG_RING_BUFFER_SIZE) ≠ t) :
    Snapshot (atom cfg sys (Atom.write_byte c))
      (u16 ((h + 1) % cfg.LOG_RING_BUFFER_SIZE)) t b lens k m := by
  obtain ⟨h1, h2, h3, h4, h5, h6⟩ := snap
  have hstep : ring_buffer_write cfg [c] sys.logger
      = { sys.logger with
          ring_buffer := fun i => if i = sys.logger.head then c else sys.logger.ring_buffer i
          head := u16 ((sys.logger.head + 1) % cfg.LOG_RING_BUFFER_SIZE) } := by
    simp only [ring_buffer_write, if_neg hc, h1, h2, if_neg hne]
  simp only [atom, hstep]
  exact ⟨by simp only [h1], h2, h3, h4, h5, h6⟩

theorem snapshot_writes_wide (cfg : Config) (hN : 65536 < cfg.LOG_RING_BUFFER_SIZE) (c : Nat)
    (hc : c ≠ 0) {t : Nat} {b : Bool} {lens : List Nat} {k : Nat} {m : Bool} :
    ∀ (n h : Nat) (sys : System), Snapshot sys h t b lens k m → h + n ≤ 65535 →
      t ≤ h ∨ h + n < t →
      Snapshot (interleave cfg (List.replicate n (Atom.write_byte c)) sys) (h + n) t b lens k m := by
  intro n
  induction n with
  | zero => intro h sys snap _ _; simpa [interleave] using snap
  | succ n ih =>
    intro h sys snap hle ht
    have hnext : u16 ((h + 1) % cfg.LOG_RING_BUFFER_SIZE) = h + 1 := by
      rw [Nat.mod_eq_of_lt (by omega), u16, Nat.mod_eq_of_lt (by omega)]
    have hne : u16 ((h + 1) % cfg.LOG_RING_BUFFER_SIZE) ≠ t := by
      rw [hnext]; omega
    have s1 := snapshot_write_byte cfg snap c hc hne
    rw [hnext] at s1
    have s2 := ih (h + 1) _ s1 (by omega) (by omega)
    simp only [List.replicate_succ, interleave]
    have e : h + (n + 1) = h + 1 + n := by omega
    rw [e]
    exact s2

theorem snapshot_kick_dma (cfg : Config) (hd : cfg.LOG_USE_DMA = true) {sys : System}
    {h t : Nat} {lens : List Nat} {k : Nat} {m : Bool}
    (snap : Snapshot sys h t false lens k m) (hne : t ≠ h) :
    Snapshot (atom cfg sys Atom.kick) h t true
      (lens ++ [if h ≥ t then u16i ((h : Int) - t)
                else u16i ((cfg.LOG_RING_BUFFER_SIZE : Int) - t)]) k m := by
  obtain ⟨h1, h2, h3, h4, h5, h6⟩ := snap
  simp only [atom]
  rw [kick_async (Or.inl hd) sys.logger h3 (by rw [h1, h2]; exact hne)]
  refine ⟨h1, h2, rfl, ?_, h5, h6⟩
  simp [h4, hd, send_len, h1, h2]

theorem snapshot_advance_dma (cfg : Config) (hd : cfg.LOG_USE_DMA = true) {sys : System}
    {h t : Nat} {b : Bool} {lens : List Nat} {k : Nat}
    (snap : Snapshot sys h t b lens k false) {n : Nat} (hn : lens[k]? = some n) :
    Snapshot (atom cfg sys Atom.cplt_advance_tail) h
      (u16 ((t + n) % cfg.LOG_RING_BUFFER_SIZE)) b lens (k + 1) true ∧
    advance_amount cfg sys = n := by
  obtain ⟨h1, h2, h3, h4, h5, h6⟩ := snap
  have hlt : sys.completed < sys.logger.uart_tx.length := by
    have := (List.getElem?_eq_some_iff.mp hn).1
    rw [← h4, List.length_map] at this
    rw [h5]; exact this
  have hsize : (completing_huart cfg sys).TxXferSize = n := by
    rw [← h4, ← h5, List.getElem?_map] at hn
    simp only [completing_huart]
    cases hx : sys.logger.uart_tx[sys.completed]? with
    | none => rw [hx] at hn; simp at hn
    | some x => rw [hx] at hn; simpa using hn
  refine ⟨?_, by simp [advance_amount, hd, hsize]⟩
  simp only [atom, h6, hlt, and_self, if_true]
  obtain ⟨f1, f2, f3, _⟩ := TxCplt_advance_tail_frame cfg (completing_huart cfg sys) sys.logger
  refine ⟨by rw [f3, h1], ?_, by rw [f2, h3], by rw [f1, h4], by rw [h5], rfl⟩
  simp [TxCplt_advance_tail, hd, hsize, h2]

theorem snapshot_restart_empty (cfg : Config) {sys : System} {h : Nat} {b : Bool}
    {lens : List Nat} {k : Nat} (snap : Snapshot sys h h b lens k true) :
    Snapshot (atom cfg sys Atom.cplt_restart) h h false lens k false := by
  obtain ⟨h1, h2, h3, h4, h5, h6⟩ := snap
  have hk : TxCplt_restart cfg sys.logger = { sys.logger with tx_busy := false } := by
    simp [TxCplt_restart, ring_buffer_send_next, h1, h2]
  simp only [atom, h6, if_true, hk]
  exact ⟨h1, h2, rfl, h4, h5, rfl⟩

theorem wide_ring_snapshot :
    Snapshot wide_ring_state 3 65535 true [65535, 3393] 1 false := by
  have s0 : Snapshot (System.start (config_dma 200000) 0) 0 0 false [] 0 false :=
    ⟨rfl, rfl, rfl, rfl, rfl, rfl⟩
  have sA := snapshot_writes_wide (config_dma 200000) (by decide) 65 (by decide)
    65535 0 _ s0 (by decide) (Or.inl (le_refl _))
  have sB := snapshot_kick_dma (config_dma 200000) rfl sA (by decide)
  have sC := (snapshot_advance_dma (config_dma 200000) (n := 65535) rfl sB (by decide)).1
  have e1 : u16 ((0 + 65535) % (config_dma 200000).LOG_RING_BUFFER_SIZE) = 65535 := by decide
  have e0 : (0 : Nat) + 65535 = 65535 := rfl
  rw [e1, e0] at sC
  have sD := snapshot_restart_empty (config_dma 200000) sC
  have sE := snapshot_write_byte (config_dma 200000) sD 65 (by decide) (by decide)
  have e2 : u16 ((65535 + 1) % (config_dma 200000).LOG_RING_BUFFER_SIZE) = 0 := by decide
  rw [e2] at sE
  have sF := snapshot_writes_wide (config_dma 200000) (by decide) 65 (by decide)
    3 0 _ sE (by decide) (Or.inr (by decide))
  have sG := snapshot_kick_dma (config_dma 200000) rfl sF (by decide)
  have e3 : ([] ++ [if (0 + 65535 : Nat) ≥ 0 then u16i (((0 + 65535 : Nat) : Int) - (0 : Nat))
        else u16i (((config_dma 200000).LOG_RING_BUFFER_SIZE : Int) - (0 : Nat))]
      ++ [if (0 + 3 : Nat) ≥ 65535 then u16i (((0 + 3 : Nat) : Int) - (65535 : Nat))
        else u16i (((config_dma 200000).LOG_RING_BUFFER_SIZE : Int) - (65535 : Nat))])
      = [65535, 3393] := by decide
  rw [e3] at sG
  unfold wide_ring_state wide_ring_steps
  rw [interleave_append, interleave_append, interleave_append]
  exact sG


theorem count_of_cursors (cfg : Config) (s : Logger) {h t : Nat} (hh : s.head = h)
    (ht : s.tail = t) :
    count cfg s = (h + cfg.LOG_RING_BUFFER_SIZE - t) % cfg.LOG_RING_BUFFER_SIZE := by
  rw [count, hh, ht]

/-- C8, as stated, fails when the ring is declared with more slots than the
`uint16_t` cursors can address. With `LOG_RING_BUFFER_SIZE = 200000` in DMA
mode, after the steps `wide_ring_steps` the cursors are `tail = 65535` and
`head = 3` (the four bytes at slots 65535, 0, 1, 2 are queued) and a transfer
is in flight whose length `200000 - 65535` was stored in the `uint16_t len` as
3393; its completion sets `tail` to 3392, past `head`, and the queued count
`(head - tail) mod N` grows. -/
theorem C8_tail_passes_head_on_wide_ring :
    wide_ring_state.in_handler = false ∧
    wide_ring_state.completed < wide_ring_state.logger.uart_tx.length ∧
    wide_ring_state.logger.head = 3 ∧
    wide_ring_state.logger.tail = 65535 ∧
    advance_amount (config_dma 200000) wide_ring_state = 3393 ∧
    (atom (config_dma 200000) wide_ring_state Atom.cplt_advance_tail).logger.head = 3 ∧
    (atom (config_dma 200000) wide_ring_state Atom.cplt_advance_tail).logger.tail = 3392 ∧
    count (config_dma 200000) wide_ring_state.logger
      < count (config_dma 200000)
          (atom (config_dma 200000) wide_ring_state Atom.cplt_advance_tail).logger := by
  have snap := wide_ring_snapshot
  obtain ⟨after, hamt⟩ :=
    snapshot_advance_dma (config_dma 200000) (n := 3393) rfl snap (by decide)
  have e : u16 ((65535 + 3393) % (config_dma 200000).LOG_RING_BUFFER_SIZE) = 3392 := by decide
  rw [e] at after
  have hlen : wide_ring_state.logger.uart_tx.length = 2 := by
    have := congrArg List.length snap.lens_eq
    simpa using this
  refine ⟨snap.handler_eq, ?_, snap.head_eq, snap.tail_eq, hamt, after.head_eq,
    after.tail_eq, ?_⟩
  · rw [snap.completed_eq, hlen]; decide
  · rw [count_of_cursors _ _ snap.head_eq snap.tail_eq,
      count_of_cursors _ _ after.head_eq after.tail_eq]
    decide


/-! ## C9: the critical sections of the handler -/

/-- The steps listed for the handler, carried out in order, are the handler. -/
theorem exec_events_TxCplt (cfg : Config) (huart : UART_HandleTypeDef) (s : Logger) :
    exec_events cfg huart (Logger_UART_TxCpltCallback_events cfg huart s) s
      = Logger_UART_TxCpltCallback cfg huart s := by
  unfold Logger_UART_TxCpltCallback_events Logger_UART_TxCpltCallback
  by_cases hinst : huart.Instance = cfg.uart_instance
  · simp only [hinst, if_true, TxCplt_restart, ring_buffer_send_next_events,
      ring_buffer_send_next]
    by_cases hc : (TxCplt_advance_tail cfg huart s).tail = (TxCplt_advance_tail cfg huart s).head
    · by_cases hd : cfg.LOG_USE_DMA = true
      · simp [hc, hd, exec_events, exec_ev]
      · by_cases hi : cfg.LOG_USE_IT = true
        · simp [hc, hd, hi, exec_events, exec_ev]
        · have hadv : TxCplt_advance_tail cfg huart s = s := by
            simp [TxCplt_advance_tail, hd, hi]
          rw [hadv] at hc ⊢
          simp [hc, hd, hi, exec_events, exec_ev]
    · by_cases hd : cfg.LOG_USE_DMA = true
      · simp [hc, hd, exec_events, exec_ev, send_len]
      · by_cases hi : cfg.LOG_USE_IT = true
        · simp [hc, hd, hi, exec_events, exec_ev]
        · have hadv : TxCplt_advance_tail cfg huart s = s := by
            simp [TxCplt_advance_tail, hd, hi]
          rw [hadv] at hc ⊢
          simp [hc, hd, hi, exec_events, exec_ev]
  · simp [hinst, exec_events]

/-- C9, as stated, fails: in the handler the critical section that advances
`tail` is left (line 132, interrupts enabled) before the one that clears
`tx_busy` is entered (line 134), and the `LOG_EXIT_CRITICAL` of
`ring_buffer_send_next` (line 105) enables interrupts before the HAL call of
the re-kick. Shown in interrupt mode on a ring of 4 slots with two bytes
queued. -/
theorem C9_interrupts_enabled_inside_handler :
    never_enabled (finish_restart_window (irq_trace true
      (Logger_UART_TxCpltCallback_events (config_it 4) ⟨1, 1⟩
        { at_cursors (config_it 4) 2 0 with tx_busy := true }))) = false ∧
    irq_trace true
      (Logger_UART_TxCpltCallback_events (config_it 4) ⟨1, 1⟩
        { at_cursors (config_it 4) 2 0 with tx_busy := true })
      = [(Ev.enter_critical, false), (Ev.advance_tail, false), (Ev.exit_critical, true),
         (Ev.enter_critical, false), (Ev.clear_busy, false),
         (Ev.enter_critical, false), (Ev.test_busy_empty, false), (Ev.set_busy, false),
         (Ev.exit_critical, true), (Ev.hal_transmit, true), (Ev.exit_critical, true)] := by
  decide

/-- C9 (amended): within one invocation of the completion handler on the
logger's UART, in DMA or interrupt mode, with `LOG_ENTER_CRITICAL` disabling
and `LOG_EXIT_CRITICAL` enabling interrupts: the advance of `tail`, the
clearing of `tx_busy`, and the re-kick's test of `tx_busy || tail == head` and
its setting of `tx_busy` each run with interrupts disabled; the advance of
`tail` has a critical section of its own, which is left before `tx_busy` is
cleared; and no `LOG_EXIT_CRITICAL` comes between the clearing of `tx_busy`
and the re-kick's test and setting of `tx_busy`. Nothing is stated about the
HAL call of the re-kick. -/
theorem C9_critical_sections (cfg : Config) (huart : UART_HandleTypeDef) (s : Logger)
    (irq : Bool) (hinst : huart.Instance = cfg.uart_instance)
    (hmode : cfg.LOG_USE_DMA = true ∨ cfg.LOG_USE_IT = true) :
    guarded_steps_disabled
      (irq_trace irq (Logger_UART_TxCpltCallback_events cfg huart s)) = true ∧
    steps_between Ev.advance_tail Ev.clear_busy (Logger_UART_TxCpltCallback_events cfg huart s)
      = [Ev.exit_critical, Ev.enter_critical] ∧
    Ev.exit_critical ∉ steps_between Ev.clear_busy Ev.test_busy_empty
      (Logger_UART_TxCpltCallback_events cfg huart s) ∧
    (Ev.set_busy ∈ Logger_UART_TxCpltCallback_events cfg huart s →
      Ev.exit_critical ∉ steps_between Ev.clear_busy Ev.set_busy
        (Logger_UART_TxCpltCallback_events cfg huart s)) := by
  have hpre : (if cfg.LOG_USE_DMA = true then
        [Ev.enter_critical, Ev.advance_tail, Ev.exit_critical]
      else if cfg.LOG_USE_IT = true then
        [Ev.enter_critical, Ev.advance_tail, Ev.exit_critical]
      else []) = [Ev.enter_critical, Ev.advance_tail, Ev.exit_critical] := by
    rcases hmode with h | h
    · simp [h]
    · simp [h]
  have hhal : (if cfg.LOG_USE_DMA = true then [Ev.hal_transmit]
      else if cfg.LOG_USE_IT = true then [Ev.hal_transmit]
      else []) = [Ev.hal_transmit] := by
    rcases hmode with h | h
    · simp [h]
    · simp [h]
  simp only [Logger_UART_TxCpltCallback_events, hinst, if_true, ring_buffer_send_next_events,
    hpre, hhal]
  by_cases hc : (TxCplt_advance_tail cfg huart s).tail = (TxCplt_advance_tail cfg huart s).head
  · simp only [hc, or_true, if_true]
    cases irq <;> decide
  · simp only [hc, or_false, Bool.false_eq_true, if_false]
    cases irq <;> decide

/-- The critical sections of the handler in interrupt mode on a ring of 4
slots with two bytes queued. -/
theorem C9_critical_sections_witness :
    guarded_steps_disabled
      (irq_trace true (Logger_UART_TxCpltCallback_events (config_it 4) ⟨1, 1⟩
        { at_cursors (config_it 4) 2 0 with tx_busy := true })) = true :=
  (C9_critical_sections (config_it 4) ⟨1, 1⟩
    { at_cursors (config_it 4) 2 0 with tx_busy := true } true rfl (Or.inr rfl)).1


/-! ## C11 and C12: the successful kick and the contiguous run -/

theorem send_len_eq_contiguous_run {cfg : Config} {s : Logger} (wf : WellFormed cfg s)
    (hd : cfg.LOG_USE_DMA = true) : send_len cfg s = contiguous_run cfg s := by
  have h1 := wf.head_lt
  have h2 := wf.tail_lt
  rw [send_len_dma wf hd, contiguous_run, count_eq wf]
  split_ifs <;> omega

theorem mem_read_eq_take_queued {cfg : Config} {s : Logger} {n : Nat}
    (hn : n ≤ count cfg s) (hend : s.tail + n ≤ cfg.LOG_RING_BUFFER_SIZE) :
    mem_read s.ring_buffer s.tail n = (queued cfg s).take n := by
  apply List.ext_getElem
  · simp [mem_read, queued_length, hn]
  · intro i h1 h2
    have hi : i < n := by simpa [mem_read] using h1
    simp only [mem_read, queued, List.getElem_map, List.getElem_range, List.getElem_take]
    rw [Nat.mod_eq_of_lt (by omega)]

/-- C11: for every well-formed state with `tx_busy` false and `head != tail`,
`ring_buffer_send_next` sets `tx_busy`, leaves `head`, `tail` and the buffer
contents unchanged, and starts exactly one transfer, whose source is slot
`tail`; its length is the contiguous run of queued bytes from `tail` in DMA
mode and 1 in interrupt mode. -/
theorem C11_successful_kick (cfg : Config) (s : Logger) (wf : WellFormed cfg s)
    (hb : s.tx_busy = false) (hne : s.head ≠ s.tail) :
    (ring_buffer_send_next cfg s).tx_busy = true ∧
    (ring_buffer_send_next cfg s).head = s.head ∧
    (ring_buffer_send_next cfg s).tail = s.tail ∧
    (ring_buffer_send_next cfg s).ring_buffer = s.ring_buffer ∧
    (cfg.LOG_USE_DMA = true →
      ∃ t, (ring_buffer_send_next cfg s).uart_tx = s.uart_tx ++ [t] ∧
        t.ptr = s.tail ∧ t.len = contiguous_run cfg s ∧
        t.data = mem_read s.ring_buffer s.tail t.len) ∧
    (cfg.LOG_USE_DMA = false → cfg.LOG_USE_IT = true →
      ∃ t, (ring_buffer_send_next cfg s).uart_tx = s.uart_tx ++ [t] ∧
        t.ptr = s.tail ∧ t.len = 1 ∧ t.data = [s.ring_buffer s.tail]) := by
  have hne2 : s.tail ≠ s.head := fun h => hne h.symm
  have hcore : (ring_buffer_send_next cfg s).tx_busy = true ∧
      (ring_buffer_send_next cfg s).head = s.head ∧
      (ring_buffer_send_next cfg s).tail = s.tail ∧
      (ring_buffer_send_next cfg s).ring_buffer = s.ring_buffer := by
    unfold ring_buffer_send_next HAL_UART_Transmit_DMA HAL_UART_Transmit_IT
    rw [if_neg (by simp [hb, hne2])]
    split_ifs <;> exact ⟨rfl, rfl, rfl, rfl⟩
  refine ⟨hcore.1, hcore.2.1, hcore.2.2.1, hcore.2.2.2, fun hd => ?_, fun hd hi => ?_⟩
  · rw [kick_async (Or.inl hd) s hb hne2]
    refine ⟨_, rfl, rfl, ?_, ?_⟩
    · simp [hd, send_len_eq_contiguous_run wf hd]
    · simp [hd]
  · rw [kick_it hd hi s hb hne2]
    exact ⟨_, rfl, rfl, rfl, rfl⟩

/-- The kick in DMA mode on a ring of 4 slots with three bytes queued from slot
2 (`tail = 2`, `head = 1`): one transfer of the 2 bytes up to the array end. -/
theorem C11_successful_kick_witness :
    ∃ t, (ring_buffer_send_next (config_dma 4) (at_cursors (config_dma 4) 1 2)).uart_tx
        = (at_cursors (config_dma 4) 1 2).uart_tx ++ [t] ∧
      t.ptr = 2 ∧ t.len = 2 ∧
      t.data = mem_read (at_cursors (config_dma 4) 1 2).ring_buffer 2 t.len :=
  (C11_successful_kick (config_dma 4) (at_cursors (config_dma 4) 1 2)
    ⟨by decide, by decide, by decide, by decide⟩ rfl (by decide)).2.2.2.2.1 rfl

/-- C12: in DMA mode, for every well-formed state with `head != tail`, the
length `len` computed by `ring_buffer_send_next` (`head - tail` when
`head >= tail`, otherwise `N - tail`) satisfies `1 <= len <= (head - tail) mod N`
and `tail + len <= N`; the bytes the transfer covers are exactly the first
`len` queued bytes, and this is the transfer the kick starts from Idle. -/
theorem C12_contiguous_run_inside (cfg : Config) (s : Logger)
    (hd : cfg.LOG_USE_DMA = true) (wf : WellFormed cfg s) (hne : s.head ≠ s.tail) :
    send_len cfg s = (if s.head ≥ s.tail then s.head - s.tail
      else cfg.LOG_RING_BUFFER_SIZE - s.tail) ∧
    1 ≤ send_len cfg s ∧
    send_len cfg s ≤ count cfg s ∧
    s.tail + send_len cfg s ≤ cfg.LOG_RING_BUFFER_SIZE ∧
    mem_read s.ring_buffer s.tail (send_len cfg s) = (queued cfg s).take (send_len cfg s) ∧
    (s.tx_busy = false →
      ∃ t, (ring_buffer_send_next cfg s).uart_tx = s.uart_tx ++ [t] ∧
        t.ptr = s.tail ∧ t.len = send_len cfg s ∧
        t.data = (queued cfg s).take (send_len cfg s)) := by
  have h1 := wf.head_lt
  have h2 := wf.tail_lt
  have hlen := send_len_dma wf hd
  have hle := send_len_le_count wf hd
  have hend : s.tail + send_len cfg s ≤ cfg.LOG_RING_BUFFER_SIZE := by
    rw [hlen]; split_ifs <;> omega
  have hread := mem_read_eq_take_queued hle hend
  refine ⟨?_, ?_, hle, hend, hread, fun hb => ?_⟩
  · rw [hlen]
  · rw [hlen]; split_ifs <;> omega
  · rw [kick_async (Or.inl hd) s hb (fun h => hne h.symm)]
    refine ⟨_, rfl, rfl, by simp [hd], ?_⟩
    simp only [hd, if_true]
    exact hread

/-- The contiguous run on a ring of 4 slots in DMA mode with three bytes queued
from slot 2: the length is 2 and the transfer ends at the array end. -/
theorem C12_contiguous_run_inside_witness :
    send_len (config_dma 4) (at_cursors (config_dma 4) 1 2) = 2 ∧
    (at_cursors (config_dma 4) 1 2).tail + send_len (config_dma 4) (at_cursors (config_dma 4) 1 2)
      ≤ 4 :=
  have h := C12_contiguous_run_inside (config_dma 4) (at_cursors (config_dma 4) 1 2) rfl
    ⟨by decide, by decide, by decide, by decide⟩ (by decide)
  ⟨h.1, h.2.2.2.1⟩


/-! ## Frame lemmas of the engine and the sinks -/

/-- Fields other than `tx_busy` and `uart_tx` are not written by
`ring_buffer_send_next`. -/
theorem ring_buffer_send_next_frame (cfg : Config) (s : Logger) :
    (ring_buffer_send_next cfg s).head = s.head ∧
    (ring_buffer_send_next cfg s).tail = s.tail ∧
    (ring_buffer_send_next cfg s).ring_buffer = s.ring_buffer ∧
    (ring_buffer_send_next cfg s).current_level = s.current_level ∧
    (ring_buffer_send_next cfg s).logging_enabled = s.logging_enabled ∧
    (ring_buffer_send_next cfg s).sd_initialized = s.sd_initialized ∧
    (ring_buffer_send_next cfg s).uart_blocking = s.uart_blocking ∧
    (ring_buffer_send_next cfg s).sd_calls = s.sd_calls ∧
    (ring_buffer_send_next cfg s).vsnprintf_calls = s.vsnprintf_calls := by
  unfold ring_buffer_send_next HAL_UART_Transmit_DMA HAL_UART_Transmit_IT
  split_ifs <;> exact ⟨rfl, rfl, rfl, rfl, rfl, rfl, rfl, rfl, rfl⟩

theorem ring_buffer_send_next_keeps_busy (cfg : Config) (s : Logger)
    (hb : s.tx_busy = true) : (ring_buffer_send_next cfg s).tx_busy = true := by
  rw [kick_busy cfg s hb]; exact hb

/-- Fields the default UART sink does not write. -/
theorem Log_Write_UART_frame (cfg : Config) (msg : List Nat) (s : Logger) :
    (Log_Write_UART cfg msg s).tail = s.tail ∧
    (Log_Write_UART cfg msg s).current_level = s.current_level ∧
    (Log_Write_UART cfg msg s).logging_enabled = s.logging_enabled ∧
    (Log_Write_UART cfg msg s).sd_initialized = s.sd_initialized ∧
    (Log_Write_UART cfg msg s).sd_calls = s.sd_calls ∧
    (Log_Write_UART cfg msg s).vsnprintf_calls = s.vsnprintf_calls := by
  unfold Log_Write_UART
  split_ifs
  · obtain ⟨_, k2, _, k4, k5, k6, _, k8, k9⟩ :=
      ring_buffer_send_next_frame cfg (ring_buffer_write cfg msg s)
    obtain ⟨w1, _, _, w4, w5, w6, _, w8, w9⟩ := ring_buffer_write_frame cfg msg s
    exact ⟨k2.trans w1, k4.trans w4, k5.trans w5, k6.trans w6, k8.trans w8, k9.trans w9⟩
  · exact ⟨rfl, rfl, rfl, rfl, rfl, rfl⟩

theorem Log_Write_UART_keeps_busy (cfg : Config) (msg : List Nat) (s : Logger)
    (hb : s.tx_busy = true) : (Log_Write_UART cfg msg s).tx_busy = true := by
  unfold Log_Write_UART
  split_ifs
  · apply ring_buffer_send_next_keeps_busy
    rw [(ring_buffer_write_frame cfg msg s).2.1]; exact hb
  · exact hb

/-- The default SD sink writes nothing but the record of FatFS calls. -/
theorem Log_Write_SD_frame (cfg : Config) (fr_write : Nat) (msg : List Nat) (s : Logger) :
    SameRing (Log_Write_SD cfg fr_write msg s) s ∧
    (Log_Write_SD cfg fr_write msg s).current_level = s.current_level ∧
    (Log_Write_SD cfg fr_write msg s).logging_enabled = s.logging_enabled ∧
    (Log_Write_SD cfg fr_write msg s).sd_initialized = s.sd_initialized ∧
    (Log_Write_SD cfg fr_write msg s).vsnprintf_calls = s.vsnprintf_calls := by
  unfold Log_Write_SD SameRing
  split_ifs <;> exact ⟨⟨rfl, rfl, rfl, rfl, rfl, rfl⟩, rfl, rfl, rfl, rfl⟩

/-- When the filter lets a message pass, `Log` formats it and hands it to each
configured sink. -/
theorem Log_of_pass (cfg : Config) (fr_write level : Nat) (text : List Nat) (s : Logger)
    (hen : s.logging_enabled ≠ 0) (hl : level ≤ s.current_level) :
    Log cfg fr_write level text s
      = (if cfg.LOG_USE_SD then Log_Write_SD cfg fr_write (vsnprintf cfg.LOG_BUFFER_SIZE text)
          else id)
        ((if cfg.LOG_USE_UART then Log_Write_UART cfg (vsnprintf cfg.LOG_BUFFER_SIZE text)
          else id)
          { s with vsnprintf_calls := s.vsnprintf_calls + 1 }) := by
  unfold Log
  rw [if_neg (by intro h; rcases h with h | h; exact hen h; omega)]
  by_cases hu : cfg.LOG_USE_UART = true <;> by_cases hs : cfg.LOG_USE_SD = true <;>
    simp [hu, hs]

theorem Log_vsnprintf_calls_of_pass (cfg : Config) (fr_write level : Nat) (text : List Nat)
    (s : Logger) (hen : s.logging_enabled ≠ 0) (hl : level ≤ s.current_level) :
    (Log cfg fr_write level text s).vsnprintf_calls = s.vsnprintf_calls + 1 := by
  rw [Log_of_pass cfg fr_write level text s hen hl]
  by_cases hu : cfg.LOG_USE_UART = true <;> by_cases hs : cfg.LOG_USE_SD = true <;>
    simp [hu, hs, (Log_Write_SD_frame cfg _ _ _).2.2.2.2, (Log_Write_UART_frame cfg _ _).2.2.2.2.2]

theorem Log_keeps_busy (cfg : Config) (fr_write level : Nat) (text : List Nat) (s : Logger)
    (hb : s.tx_busy = true) : (Log cfg fr_write level text s).tx_busy = true := by
  by_cases hf : s.logging_enabled = 0 ∨ level > s.current_level
  · unfold Log; rw [if_pos hf]; exact hb
  · have hen : s.logging_enabled ≠ 0 := fun h => hf (Or.inl h)
    have hl : level ≤ s.current_level := by
      by_contra h; exact hf (Or.inr (by omega))
    rw [Log_of_pass cfg fr_write level text s hen hl]
    by_cases hu : cfg.LOG_USE_UART = true <;> by_cases hs : cfg.LOG_USE_SD = true <;>
      simp only [hu, hs, if_true, if_false, Bool.false_eq_true, id]
    · rw [(Log_Write_SD_frame cfg _ _ _).1.2.2.1]
      exact Log_Write_UART_keeps_busy cfg _ _ hb
    · exact Log_Write_UART_keeps_busy cfg _ _ hb
    · rw [(Log_Write_SD_frame cfg _ _ _).1.2.2.1]
      exact hb
    · exact hb


/-! ## C13: Sending is left only through the handler -/

/-- C13: in every state with `tx_busy` true, none of `ring_buffer_write`,
`ring_buffer_send_next`, `Log`, `Log_Write_UART`, `Log_Write_SD`,
`Log_SetLevel`, `Log_Disable`, `Log_Flush`, `Log_Init`, nor the completion
handler invoked for another UART, clears `tx_busy`; the handler invoked for the
logger's UART does clear it, when the buffer is empty after the tail
advance. -/
theorem C13_sending_left_only_through_handler (cfg : Config) (s : Logger)
    (hb : s.tx_busy = true) :
    (∀ data, (ring_buffer_write cfg data s).tx_busy = true) ∧
    (ring_buffer_send_next cfg s).tx_busy = true ∧
    (∀ fr_write level text, (Log cfg fr_write level text s).tx_busy = true) ∧
    (∀ msg, (Log_Write_UART cfg msg s).tx_busy = true) ∧
    (∀ fr_write msg, (Log_Write_SD cfg fr_write msg s).tx_busy = true) ∧
    (∀ level, (Log_SetLevel level s).tx_busy = true) ∧
    (Log_Disable s).tx_busy = true ∧
    (Log_Flush cfg s).tx_busy = true ∧
    (∀ fr_open, (Log_Init cfg fr_open s).tx_busy = true) ∧
    (∀ huart, huart.Instance ≠ cfg.uart_instance →
      (Logger_UART_TxCpltCallback cfg huart s).tx_busy = true) ∧
    (∀ huart, huart.Instance = cfg.uart_instance →
      (TxCplt_advance_tail cfg huart s).tail = (TxCplt_advance_tail cfg huart s).head →
      (Logger_UART_TxCpltCallback cfg huart s).tx_busy = false) := by
  refine ⟨fun data => ?_, ring_buffer_send_next_keeps_busy cfg s hb,
    fun fr level text => Log_keeps_busy cfg fr level text s hb,
    fun msg => Log_Write_UART_keeps_busy cfg msg s hb, fun fr msg => ?_, fun _ => hb, hb, ?_,
    fun fr_open => ?_, fun huart hne => ?_, fun huart heq hempty => ?_⟩
  · rw [(ring_buffer_write_frame cfg data s).2.1]; exact hb
  · rw [(Log_Write_SD_frame cfg fr msg s).1.2.2.1]; exact hb
  · unfold Log_Flush
    split_ifs <;> exact hb
  · unfold Log_Init
    split_ifs <;> exact hb
  · unfold Logger_UART_TxCpltCallback
    rw [if_neg hne]; exact hb
  · rw [TxCplt_of_instance cfg huart s heq]
    simp [TxCplt_restart, ring_buffer_send_next, hempty]

/-- With a transfer in flight on a ring of 4 slots holding one byte, a further
`Log` call keeps the engine Sending. -/
theorem C13_sending_left_only_through_handler_witness :
    (Log (config_it 4) 0 1 [65] { at_cursors (config_it 4) 1 0 with tx_busy := true }).tx_busy
      = true :=
  (C13_sending_left_only_through_handler (config_it 4)
    { at_cursors (config_it 4) 1 0 with tx_busy := true } rfl).2.2.1 0 1 [65]

/-! ## C20: completions for another UART -/

/-- C20: for every state and every UART handle whose `Instance` differs from
that of the logger's UART, `Logger_UART_TxCpltCallback` and
`HAL_UART_TxCpltCallback` return the state as they found it: `head`, `tail`,
`tx_busy` and the buffer contents are unchanged and no transfer is started. -/
theorem C20_other_uart_ignored (cfg : Config) (s : Logger) (huart : UART_HandleTypeDef)
    (hne : huart.Instance ≠ cfg.uart_instance) :
    Logger_UART_TxCpltCallback cfg huart s = s ∧
    HAL_UART_TxCpltCallback cfg huart s = s ∧
    (Logger_UART_TxCpltCallback cfg huart s).head = s.head ∧
    (Logger_UART_TxCpltCallback cfg huart s).tail = s.tail ∧
    (Logger_UART_TxCpltCallback cfg huart s).tx_busy = s.tx_busy ∧
    (Logger_UART_TxCpltCallback cfg huart s).ring_buffer = s.ring_buffer ∧
    (Logger_UART_TxCpltCallback cfg huart s).uart_tx = s.uart_tx := by
  have h : Logger_UART_TxCpltCallback cfg huart s = s := by
    unfold Logger_UART_TxCpltCallback
    rw [if_neg hne]
  refine ⟨h, ?_, ?_, ?_, ?_, ?_, ?_⟩
  · unfold HAL_UART_TxCpltCallback; exact h
  all_goals rw [h]

/-- A completion of UART instance 2 while the logger, on instance 1, has a
transfer in flight: `tail` stays put. -/
theorem C20_other_uart_ignored_witness :
    (Logger_UART_TxCpltCallback (config_it 4) ⟨2, 1⟩
      { at_cursors (config_it 4) 2 0 with tx_busy := true }).tail = 0 :=
  ((C20_other_uart_ignored (config_it 4) { at_cursors (config_it 4) 2 0 with tx_busy := true }
    ⟨2, 1⟩ (by decide)).2.2.2.1).trans rfl

/-! ## C15 and C18: `Log_Init` -/

/-- What `Log_Init` writes and what it leaves alone. -/
theorem Log_Init_fields (cfg : Config) (fr_open : Nat) (s : Logger) :
    (Log_Init cfg fr_open s).head = 0 ∧
    (Log_Init cfg fr_open s).tail = 0 ∧
    (Log_Init cfg fr_open s).logging_enabled = 1 ∧
    (Log_Init cfg fr_open s).tx_busy = s.tx_busy ∧
    (Log_Init cfg fr_open s).current_level = s.current_level ∧
    (Log_Init cfg fr_open s).ring_buffer = s.ring_buffer ∧
    (Log_Init cfg fr_open s).uart_tx = s.uart_tx ∧
    (Log_Init cfg fr_open s).uart_blocking = s.uart_blocking ∧
    (Log_Init cfg fr_open s).vsnprintf_calls = s.vsnprintf_calls := by
  unfold Log_Init
  split_ifs <;> exact ⟨rfl, rfl, rfl, rfl, rfl, rfl, rfl, rfl, rfl⟩

/-- C15: for every prior state, after `Log_Init` `head == 0` and `tail == 0`,
so the buffer is empty, and `logging_enabled` is non-zero, so a following `Log`
call at a level `<= current_level` is dispatched: the message is formatted and
handed to each configured sink. -/
theorem C15_init_postcondition (cfg : Config) (fr_open : Nat) (s : Logger) :
    (Log_Init cfg fr_open s).head = 0 ∧
    (Log_Init cfg fr_open s).tail = 0 ∧
    count cfg (Log_Init cfg fr_open s) = 0 ∧
    queued cfg (Log_Init cfg fr_open s) = [] ∧
    (Log_Init cfg fr_open s).logging_enabled ≠ 0 ∧
    (∀ fr_write level text, level ≤ (Log_Init cfg fr_open s).current_level →
      (Log cfg fr_write level text (Log_Init cfg fr_open s)).vsnprintf_calls
        = (Log_Init cfg fr_open s).vsnprintf_calls + 1 ∧
      Log cfg fr_write level text (Log_Init cfg fr_open s)
        = (if cfg.LOG_USE_SD then
            Log_Write_SD cfg fr_write (vsnprintf cfg.LOG_BUFFER_SIZE text)
          else id)
          ((if cfg.LOG_USE_UART then
              Log_Write_UART cfg (vsnprintf cfg.LOG_BUFFER_SIZE text)
            else id)
            { Log_Init cfg fr_open s with
              vsnprintf_calls := (Log_Init cfg fr_open s).vsnprintf_calls + 1 })) := by
  obtain ⟨hh, ht, he, _⟩ := Log_Init_fields cfg fr_open s
  have hen : (Log_Init cfg fr_open s).logging_enabled ≠ 0 := by rw [he]; decide
  have hc : count cfg (Log_Init cfg fr_open s) = 0 := by
    simp [count, hh, ht]
  refine ⟨hh, ht, hc, by simp [queued, hc], hen, fun fr_write level text hl => ⟨?_, ?_⟩⟩
  · exact Log_vsnprintf_calls_of_pass cfg fr_write level text _ hen hl
  · exact Log_of_pass cfg fr_write level text _ hen hl

/-- After `Log_Init` on a state with logging disabled and two bytes queued,
the cursors are 0 and a message at the threshold level is formatted. -/
theorem C15_init_postcondition_witness :
    (Log (config_it 4) 0 2 [65]
      (Log_Init (config_it 4) 0 (Log_Disable (at_cursors (config_it 4) 3 1)))).vsnprintf_calls
      = (Log_Init (config_it 4) 0 (Log_Disable (at_cursors (config_it 4) 3 1))).vsnprintf_calls
        + 1 :=
  ((C15_init_postcondition (config_it 4) 0 (Log_Disable (at_cursors (config_it 4) 3 1))).2.2.2.2.2
    0 2 [65] (by decide)).1

/-- C18: for every prior state, `Log_Init` leaves `tx_busy` and `current_level`
(and the record of started transfers) unchanged; called while the engine is
Sending, it leaves the engine Sending with `head == tail == 0`, and a following
`ring_buffer_send_next` is a no-op, also after further bytes are enqueued, as
long as no completion has arrived. -/
theorem C18_init_keeps_engine_and_threshold (cfg : Config) (fr_open : Nat) (s : Logger) :
    (Log_Init cfg fr_open s).tx_busy = s.tx_busy ∧
    (Log_Init cfg fr_open s).current_level = s.current_level ∧
    (Log_Init cfg fr_open s).uart_tx = s.uart_tx ∧
    (s.tx_busy = true →
      (Log_Init cfg fr_open s).tx_busy = true ∧
      (Log_Init cfg fr_open s).head = 0 ∧
      (Log_Init cfg fr_open s).tail = 0 ∧
      ring_buffer_send_next cfg (Log_Init cfg fr_open s) = Log_Init cfg fr_open s ∧
      (∀ data, ring_buffer_send_next cfg (ring_buffer_write cfg data (Log_Init cfg fr_open s))
        = ring_buffer_write cfg data (Log_Init cfg fr_open s))) := by
  obtain ⟨hh, ht, _, hb, hl, _, hu, _⟩ := Log_Init_fields cfg fr_open s
  refine ⟨hb, hl, hu, fun hbusy => ⟨hb.trans hbusy, hh, ht, ?_, fun data => ?_⟩⟩
  · exact kick_busy cfg _ (hb.trans hbusy)
  · apply kick_busy
    rw [(ring_buffer_write_frame cfg data _).2.1]
    exact hb.trans hbusy

/-- A `Log_Init` call while a transfer is in flight (two bytes queued): the
engine stays Sending and a kick starts nothing. -/
theorem C18_init_keeps_engine_and_threshold_witness :
    (ring_buffer_send_next (config_it 4)
      (Log_Init (config_it 4) 0 { at_cursors (config_it 4) 2 0 with tx_busy := true })).uart_tx
      = [] :=
  congrArg Logger.uart_tx
    ((C18_init_keeps_engine_and_threshold (config_it 4) 0
      { at_cursors (config_it 4) 2 0 with tx_busy := true }).2.2.2 rfl).2.2.2.1


/-! ## C14: configuration changes are not retroactive -/

theorem ring_buffer_send_next_SetLevel (cfg : Config) (level : Nat) (s : Logger) :
    ring_buffer_send_next cfg (Log_SetLevel level s)
      = Log_SetLevel level (ring_buffer_send_next cfg s) := by
  unfold ring_buffer_send_next Log_SetLevel HAL_UART_Transmit_DMA HAL_UART_Transmit_IT send_len
  split_ifs <;> rfl

theorem ring_buffer_send_next_Disable (cfg : Config) (s : Logger) :
    ring_buffer_send_next cfg (Log_Disable s) = Log_Disable (ring_buffer_send_next cfg s) := by
  unfold ring_buffer_send_next Log_Disable HAL_UART_Transmit_DMA HAL_UART_Transmit_IT send_len
  split_ifs <;> rfl

theorem TxCplt_SetLevel (cfg : Config) (huart : UART_HandleTypeDef) (level : Nat) (s : Logger) :
    Logger_UART_TxCpltCallback cfg huart (Log_SetLevel level s)
      = Log_SetLevel level (Logger_UART_TxCpltCallback cfg huart s) := by
  unfold Logger_UART_TxCpltCallback TxCplt_restart
  split_ifs
  · have h : { TxCplt_advance_tail cfg huart (Log_SetLevel level s) with tx_busy := false }
        = Log_SetLevel level { TxCplt_advance_tail cfg huart s with tx_busy := false } := by
      unfold TxCplt_advance_tail Log_SetLevel
      split_ifs <;> rfl
    rw [h, ring_buffer_send_next_SetLevel]
  · rfl

theorem TxCplt_Disable (cfg : Config) (huart : UART_HandleTypeDef) (s : Logger) :
    Logger_UART_TxCpltCallback cfg huart (Log_Disable s)
      = Log_Disable (Logger_UART_TxCpltCallback cfg huart s) := by
  unfold Logger_UART_TxCpltCallback TxCplt_restart
  split_ifs
  · have h : { TxCplt_advance_tail cfg huart (Log_Disable s) with tx_busy := false }
        = Log_Disable { TxCplt_advance_tail cfg huart s with tx_busy := false } := by
      unfold TxCplt_advance_tail Log_Disable
      split_ifs <;> rfl
    rw [h, ring_buffer_send_next_Disable]
  · rfl

theorem completions_SetLevel (cfg : Config) (level : Nat) :
    ∀ (k : Nat) (s : Logger),
      completions cfg k (Log_SetLevel level s) = Log_SetLevel level (completions cfg k s) := by
  intro k
  induction k with
  | zero => intro s; rfl
  | succ k ih =>
    intro s
    simp only [completions]
    rw [show huart_of cfg (Log_SetLevel level s) = huart_of cfg s from rfl, TxCplt_SetLevel, ih]

theorem completions_Disable (cfg : Config) :
    ∀ (k : Nat) (s : Logger),
      completions cfg k (Log_Disable s) = Log_Disable (completions cfg k s) := by
  intro k
  induction k with
  | zero => intro s; rfl
  | succ k ih =>
    intro s
    simp only [completions]
    rw [show huart_of cfg (Log_Disable s) = huart_of cfg s from rfl, TxCplt_Disable, ih]

/-- C14: for every state, `Log_SetLevel level` changes only `current_level` (to
`level`) and `Log_Disable` changes only `logging_enabled` (to 0): `head`,
`tail`, `tx_busy`, the buffer contents and the queued bytes are unchanged, and
the kick and any number of completions act on the changed state as on the
original one, so the same transfers are started; the next `Log` call is decided
by the new configuration: after `Log_SetLevel level` a message above `level`
is dropped and, with logging enabled, a message at or below `level` is
formatted; after `Log_Disable` every message is dropped. -/
theorem C14_config_not_retroactive (cfg : Config) (level : Nat) (s : Logger) :
    ((Log_SetLevel level s).current_level = level ∧
      (Log_SetLevel level s).logging_enabled = s.logging_enabled ∧
      (Log_SetLevel level s).head = s.head ∧
      (Log_SetLevel level s).tail = s.tail ∧
      (Log_SetLevel level s).tx_busy = s.tx_busy ∧
      (Log_SetLevel level s).ring_buffer = s.ring_buffer ∧
      (Log_SetLevel level s).sd_initialized = s.sd_initialized ∧
      (Log_SetLevel level s).uart_tx = s.uart_tx ∧
      (Log_SetLevel level s).uart_blocking = s.uart_blocking ∧
      (Log_SetLevel level s).sd_calls = s.sd_calls ∧
      (Log_SetLevel level s).vsnprintf_calls = s.vsnprintf_calls) ∧
    ((Log_Disable s).logging_enabled = 0 ∧
      (Log_Disable s).current_level = s.current_level ∧
      (Log_Disable s).head = s.head ∧
      (Log_Disable s).tail = s.tail ∧
      (Log_Disable s).tx_busy = s.tx_busy ∧
      (Log_Disable s).ring_buffer = s.ring_buffer ∧
      (Log_Disable s).sd_initialized = s.sd_initialized ∧
      (Log_Disable s).uart_tx = s.uart_tx ∧
      (Log_Disable s).uart_blocking = s.uart_blocking ∧
      (Log_Disable s).sd_calls = s.sd_calls ∧
      (Log_Disable s).vsnprintf_calls = s.vsnprintf_calls) ∧
    (queued cfg (Log_SetLevel level s) = queued cfg s ∧
      queued cfg (Log_Disable s) = queued cfg s) ∧
    (∀ k, (completions cfg k (ring_buffer_send_next cfg (Log_SetLevel level s))).uart_tx
        = (completions cfg k (ring_buffer_send_next cfg s)).uart_tx ∧
      (completions cfg k (ring_buffer_send_next cfg (Log_Disable s))).uart_tx
        = (completions cfg k (ring_buffer_send_next cfg s)).uart_tx) ∧
    (∀ fr_write l text, l > level →
      Log cfg fr_write l text (Log_SetLevel level s) = Log_SetLevel level s) ∧
    (∀ fr_write l text, s.logging_enabled ≠ 0 → l ≤ level →
      (Log cfg fr_write l text (Log_SetLevel level s)).vsnprintf_calls
        = s.vsnprintf_calls + 1) ∧
    (∀ fr_write l text, Log cfg fr_write l text (Log_Disable s) = Log_Disable s) := by
  refine ⟨⟨rfl, rfl, rfl, rfl, rfl, rfl, rfl, rfl, rfl, rfl, rfl⟩,
    ⟨rfl, rfl, rfl, rfl, rfl, rfl, rfl, rfl, rfl, rfl, rfl⟩, ⟨rfl, rfl⟩, fun k => ⟨?_, ?_⟩,
    fun fr_write l text hl => ?_, fun fr_write l text hen hl => ?_, fun fr_write l text => ?_⟩
  · rw [ring_buffer_send_next_SetLevel, completions_SetLevel]; rfl
  · rw [ring_buffer_send_next_Disable, completions_Disable]; rfl
  · unfold Log
    exact if_pos (Or.inr hl)
  · exact Log_vsnprintf_calls_of_pass cfg fr_write l text (Log_SetLevel level s) hen hl
  · unfold Log
    exact if_pos (Or.inl rfl)

/-- Raising the threshold to 3 while two bytes are queued and a transfer is in
flight: a message at level 3 is now formatted. -/
theorem C14_config_not_retroactive_witness :
    (Log (config_it 4) 0 3 [65]
      (Log_SetLevel 3 { at_cursors (config_it 4) 2 0 with tx_busy := true })).vsnprintf_calls
      = 1 :=
  (C14_config_not_retroactive (config_it 4) 3
    { at_cursors (config_it 4) 2 0 with tx_busy := true }).2.2.2.2.2.1 0 3 [65]
    (by decide) (by decide)


/-! ## C16: sink isolation -/

theorem sameRing_ring_buffer_write (cfg : Config) (data : List Nat) :
    ∀ a b : Logger, SameRing a b →
      SameRing (ring_buffer_write cfg data a) (ring_buffer_write cfg data b) := by
  induction data with
  | nil => intro a b h; exact h
  | cons c rest ih =>
    intro a b h
    obtain ⟨h1, h2, h3, h4, h5, h6⟩ := h
    unfold ring_buffer_write
    by_cases hc : c = 0
    · simp only [hc, if_true]; exact ⟨h1, h2, h3, h4, h5, h6⟩
    · simp only [hc, if_false, h1, h2]
      by_cases hfull : u16 ((b.head + 1) % cfg.LOG_RING_BUFFER_SIZE) = b.tail
      · simp only [hfull, if_true]; exact ⟨h1, h2, h3, h4, h5, h6⟩
      · simp only [hfull, if_false]
        apply ih
        exact ⟨rfl, rfl, h3, by simp only [h4], h5, h6⟩

theorem sameRing_ring_buffer_send_next (cfg : Config) (a b : Logger) (h : SameRing a b) :
    SameRing (ring_buffer_send_next cfg a) (ring_buffer_send_next cfg b) := by
  obtain ⟨h1, h2, h3, h4, h5, h6⟩ := h
  have e : send_len cfg a = send_len cfg b := by simp only [send_len, h1, h2]
  unfold ring_buffer_send_next HAL_UART_Transmit_DMA HAL_UART_Transmit_IT
  rw [e, h1, h2, h3]
  split_ifs <;> simp [SameRing, h1, h2, h3, h4, h5, h6]

theorem sameRing_Log_Write_UART (cfg : Config) (msg : List Nat) (a b : Logger)
    (h : SameRing a b) :
    SameRing (Log_Write_UART cfg msg a) (Log_Write_UART cfg msg b) := by
  unfold Log_Write_UART
  split_ifs
  · exact sameRing_ring_buffer_send_next cfg _ _ (sameRing_ring_buffer_write cfg msg a b h)
  · obtain ⟨h1, h2, h3, h4, h5, h6⟩ := h
    exact ⟨h1, h2, h3, h4, h5, by simp only [h6]⟩

theorem sameRing_trans {a b c : Logger} (h1 : SameRing a b) (h2 : SameRing b c) :
    SameRing a c :=
  ⟨h1.1.trans h2.1, h1.2.1.trans h2.2.1, h1.2.2.1.trans h2.2.2.1,
    h1.2.2.2.1.trans h2.2.2.2.1, h1.2.2.2.2.1.trans h2.2.2.2.2.1,
    h1.2.2.2.2.2.trans h2.2.2.2.2.2⟩

theorem sameRing_symm {a b : Logger} (h : SameRing a b) : SameRing b a :=
  ⟨h.1.symm, h.2.1.symm, h.2.2.1.symm, h.2.2.2.1.symm, h.2.2.2.2.1.symm, h.2.2.2.2.2.symm⟩

/-- The ring part of the state after a `Log` call that passes the filter is
that of the UART sink applied to the formatted message. -/
theorem Log_ring_of_pass (cfg : Config) (fr_write level : Nat) (text : List Nat) (s : Logger)
    (hen : s.logging_enabled ≠ 0) (hl : level ≤ s.current_level) :
    SameRing (Log cfg fr_write level text s)
      ((if cfg.LOG_USE_UART then Log_Write_UART cfg (vsnprintf cfg.LOG_BUFFER_SIZE text)
        else id) s) := by
  rw [Log_of_pass cfg fr_write level text s hen hl]
  have hs0 : SameRing { s with vsnprintf_calls := s.vsnprintf_calls + 1 } s :=
    ⟨rfl, rfl, rfl, rfl, rfl, rfl⟩
  by_cases hu : cfg.LOG_USE_UART = true <;> by_cases hs : cfg.LOG_USE_SD = true <;>
    simp only [hu, hs, if_true, if_false, Bool.false_eq_true, id]
  · exact sameRing_trans (Log_Write_SD_frame cfg _ _ _).1
      (sameRing_Log_Write_UART cfg _ _ _ hs0)
  · exact sameRing_Log_Write_UART cfg _ _ _ hs0
  · exact sameRing_trans (Log_Write_SD_frame cfg _ _ _).1 hs0
  · exact hs0

/-- The FatFS calls after a `Log` call that passes the filter. -/
theorem Log_sd_calls_of_pass (cfg : Config) (fr_write level : Nat) (text : List Nat)
    (s : Logger) (hen : s.logging_enabled ≠ 0) (hl : level ≤ s.current_level) :
    (Log cfg fr_write level text s).sd_calls
      = s.sd_calls ++
        (if cfg.LOG_USE_SD = true ∧ s.sd_initialized ≠ 0 then
          [SdCall.f_write (c_str (vsnprintf cfg.LOG_BUFFER_SIZE text)) fr_write]
        else []) := by
  rw [Log_of_pass cfg fr_write level text s hen hl]
  have hu : ((if cfg.LOG_USE_UART then Log_Write_UART cfg (vsnprintf cfg.LOG_BUFFER_SIZE text)
        else id) { s with vsnprintf_calls := s.vsnprintf_calls + 1 }).sd_calls = s.sd_calls ∧
      ((if cfg.LOG_USE_UART then Log_Write_UART cfg (vsnprintf cfg.LOG_BUFFER_SIZE text)
        else id) { s with vsnprintf_calls := s.vsnprintf_calls + 1 }).sd_initialized
        = s.sd_initialized := by
    split_ifs
    · exact ⟨(Log_Write_UART_frame cfg _ _).2.2.2.2.1, (Log_Write_UART_frame cfg _ _).2.2.2.1⟩
    · exact ⟨rfl, rfl⟩
  obtain ⟨hx1, hx2⟩ := hu
  generalize (if cfg.LOG_USE_UART then Log_Write_UART cfg (vsnprintf cfg.LOG_BUFFER_SIZE text)
    else id) { s with vsnprintf_calls := s.vsnprintf_calls + 1 } = x at hx1 hx2 ⊢
  rw [← hx1, ← hx2]
  by_cases hs : cfg.LOG_USE_SD = true
  · by_cases hi : x.sd_initialized = 0
    · simp [hs, hi, Log_Write_SD]
    · simp [hs, hi, Log_Write_SD]
  · simp [hs]

/-- C16: for every level and message that pass the filter, the ring-buffer
state (`head`, `tail`, `tx_busy`, buffer contents) and the transfers started
are the same after `Log` in two runs that agree on the ring-buffer state and
differ in the persistent sink's state (`sd_initialized`, the FatFS record) and
in the result of its write; and the calls and bytes handed to the persistent
sink are the same in two runs that agree on the persistent sink's state and
differ in the ring-buffer state: they are the formatted message, whatever the
ring buffer holds. -/
theorem C16_sink_isolation (cfg : Config) (a b : Logger) (fr1 fr2 level : Nat)
    (text : List Nat) (ha : a.logging_enabled ≠ 0) (hla : level ≤ a.current_level)
    (hb : b.logging_enabled ≠ 0) (hlb : level ≤ b.current_level) :
    (SameRing a b → SameRing (Log cfg fr1 level text a) (Log cfg fr2 level text b)) ∧
    (a.sd_initialized = b.sd_initialized → a.sd_calls = b.sd_calls →
      (Log cfg fr1 level text a).sd_calls = (Log cfg fr1 level text b).sd_calls) ∧
    (Log cfg fr1 level text a).sd_calls
      = a.sd_calls ++
        (if cfg.LOG_USE_SD = true ∧ a.sd_initialized ≠ 0 then
          [SdCall.f_write (c_str (vsnprintf cfg.LOG_BUFFER_SIZE text)) fr1]
        else []) := by
  refine ⟨fun h => ?_, fun h1 h2 => ?_, Log_sd_calls_of_pass cfg fr1 level text a ha hla⟩
  · have hA := Log_ring_of_pass cfg fr1 level text a ha hla
    have hB := Log_ring_of_pass cfg fr2 level text b hb hlb
    refine sameRing_trans hA (sameRing_trans ?_ (sameRing_symm hB))
    by_cases hu : cfg.LOG_USE_UART = true
    · simp only [hu, if_true]
      exact sameRing_Log_Write_UART cfg _ a b h
    · simp only [hu, if_false, Bool.false_eq_true, id]
      exact h
  · rw [Log_sd_calls_of_pass cfg fr1 level text a ha hla,
      Log_sd_calls_of_pass cfg fr1 level text b hb hlb, h1, h2]


/-- Sink isolation with both sinks configured: a run with the SD card not
initialised and a run with it initialised and its write failing start the
same transfer. -/
theorem C16_sink_isolation_witness :
    (Log (config_both 8) 0 2 [65] (boot (config_both 8))).uart_tx
      = (Log (config_both 8) 1 2 [65]
          { boot (config_both 8) with sd_initialized := 1 }).uart_tx :=
  ((C16_sink_isolation (config_both 8) (boot (config_both 8))
    { boot (config_both 8) with sd_initialized := 1 } 0 1 2 [65]
    (by decide) (by decide) (by decide) (by decide)).1
    ⟨rfl, rfl, rfl, rfl, rfl, rfl⟩).2.2.2.2.1


/-! ## C19: a completion on an empty buffer -/

/-- C19: in interrupt mode, for every well-formed state of a ring of at least
two slots with `head == tail` (nothing queued), one invocation of
`Logger_UART_TxCpltCallback` for the logger's UART sets `tail` to
`(head + 1) mod N`, which makes the buffer full by its own predicate with
`N - 1` bytes counted as queued, and leaves `tx_busy` true with a one-byte
transfer started at the new `tail`, a slot that held no queued byte. -/
theorem C19_completion_on_empty_buffer (cfg : Config) (s : Logger)
    (huart : UART_HandleTypeDef) (hd : cfg.LOG_USE_DMA = false) (hi : cfg.LOG_USE_IT = true)
    (wf : WellFormed cfg s) (h2 : 2 ≤ cfg.LOG_RING_BUFFER_SIZE) (hempty : s.head = s.tail)
    (hinst : huart.Instance = cfg.uart_instance) :
    queued cfg s = [] ∧
    (Logger_UART_TxCpltCallback cfg huart s).head = s.head ∧
    (Logger_UART_TxCpltCallback cfg huart s).tail
      = (s.head + 1) % cfg.LOG_RING_BUFFER_SIZE ∧
    ((Logger_UART_TxCpltCallback cfg huart s).head + 1) % cfg.LOG_RING_BUFFER_SIZE
      = (Logger_UART_TxCpltCallback cfg huart s).tail ∧
    count cfg (Logger_UART_TxCpltCallback cfg huart s) = cfg.LOG_RING_BUFFER_SIZE - 1 ∧
    (Logger_UART_TxCpltCallback cfg huart s).tx_busy = true ∧
    (Logger_UART_TxCpltCallback cfg huart s).uart_tx
      = s.uart_tx ++
        [⟨(s.head + 1) % cfg.LOG_RING_BUFFER_SIZE, 1,
          [s.ring_buffer ((s.head + 1) % cfg.LOG_RING_BUFFER_SIZE)]⟩] := by
  have h1 := wf.head_lt
  have hne : (s.tail + 1) % cfg.LOG_RING_BUFFER_SIZE ≠ s.head := by
    rw [← hempty, mod_of_lt_two_mul (by omega)]
    split_ifs <;> omega
  have hstep := TxCplt_it hd hi wf huart hinst
  rw [if_neg hne] at hstep
  have wf1 : WellFormed cfg (Logger_UART_TxCpltCallback cfg huart s) := by
    rw [hstep]; exact wf_congr (advance_wf wf 1) rfl rfl
  have hfull : ((Logger_UART_TxCpltCallback cfg huart s).head + 1) % cfg.LOG_RING_BUFFER_SIZE
      = (Logger_UART_TxCpltCallback cfg huart s).tail := by
    rw [hstep]; simp only [hempty]
  refine ⟨queued_of_empty wf hempty, ?_, ?_, hfull, (full_iff_count wf1).mp hfull, ?_, ?_⟩
  · rw [hstep]
  · rw [hstep]; simp only [hempty]
  · rw [hstep]
  · rw [hstep]; simp only [hempty]

/-- A completion on an empty ring of 4 slots with both cursors at 0, as after
`Log_Init` during a transfer: `tail` becomes 1 and three bytes appear queued. -/
theorem C19_completion_on_empty_buffer_witness :
    (Logger_UART_TxCpltCallback (config_it 4) ⟨1, 1⟩
      (Log_Init (config_it 4) 0 { at_cursors (config_it 4) 2 0 with tx_busy := true })).tail = 1 ∧
    count (config_it 4) (Logger_UART_TxCpltCallback (config_it 4) ⟨1, 1⟩
      (Log_Init (config_it 4) 0 { at_cursors (config_it 4) 2 0 with tx_busy := true })) = 3 :=
  have h := C19_completion_on_empty_buffer (config_it 4)
    (Log_Init (config_it 4) 0 { at_cursors (config_it 4) 2 0 with tx_busy := true }) ⟨1, 1⟩
    rfl rfl ⟨by decide, by decide, by decide, by decide⟩ (by decide) rfl rfl
  ⟨h.2.2.1, h.2.2.2.2.1⟩


/-! ## C17: drain in DMA mode -/

/-- The state in which a DMA transfer started from Idle leaves the engine. -/
theorem kick_dma {cfg : Config} (hd : cfg.LOG_USE_DMA = true) {s : Logger}
    (wf : WellFormed cfg s) (hb : s.tx_busy = false) (hne : s.head ≠ s.tail) :
    ring_buffer_send_next cfg s
      = { s with tx_busy := true,
                 uart_tx := s.uart_tx ++
                   [⟨s.tail, send_len cfg s, (queued cfg s).take (send_len cfg s)⟩] } := by
  have h1 := wf.head_lt
  have h2 := wf.tail_lt
  have hle := send_len_le_count wf hd
  have hend : s.tail + send_len cfg s ≤ cfg.LOG_RING_BUFFER_SIZE := by
    rw [send_len_dma wf hd]; split_ifs <;> omega
  rw [kick_async (Or.inl hd) s hb (fun h => hne h.symm)]
  simp only [hd, if_true]
  rw [mem_read_eq_take_queued hle hend]

/-- In DMA mode, a kick from Idle followed by the completion of the transfer
it started: `tail` advances by the length of the transfer and the engine is
kicked again. -/
theorem dma_round {cfg : Config} (hd : cfg.LOG_USE_DMA = true) {s : Logger}
    (wf : WellFormed cfg s) (hb : s.tx_busy = false) (hne : s.head ≠ s.tail) :
    Logger_UART_TxCpltCallback cfg (huart_of cfg (ring_buffer_send_next cfg s))
        (ring_buffer_send_next cfg s)
      = ring_buffer_send_next cfg
          { s with tail := (s.tail + send_len cfg s) % cfg.LOG_RING_BUFFER_SIZE,
                   tx_busy := false,
                   uart_tx := s.uart_tx ++
                     [⟨s.tail, send_len cfg s, (queued cfg s).take (send_len cfg s)⟩] } := by
  rw [kick_dma hd wf hb hne]
  have hsize : (huart_of cfg { s with tx_busy := true, uart_tx := s.uart_tx ++
        [⟨s.tail, send_len cfg s, (queued cfg s).take (send_len cfg s)⟩] }).TxXferSize
      = send_len cfg s := by
    simp [huart_of]
  obtain ⟨x, hx⟩ : ∃ x : Logger, x = { s with tx_busy := true, uart_tx := s.uart_tx ++
      [⟨s.tail, send_len cfg s, (queued cfg s).take (send_len cfg s)⟩] } := ⟨_, rfl⟩
  have wfx : WellFormed cfg x := by rw [hx]; exact wf_congr wf rfl rfl
  rw [← hx] at hsize ⊢
  rw [TxCplt_async (Or.inl hd) wfx _ rfl]
  simp only [hd, if_true, hsize]
  rw [hx]

/-- C17: in DMA mode, for every well-formed Idle state with `p >= 1` queued
bytes, after the kick and with no further enqueue: when the queued region
does not wrap (`head > tail`) or ends at the array end (`head == 0`) the
engine is Sending until the first completion, after which the buffer is empty
and the engine Idle; when the region wraps (`0 < head < tail`) the engine is
still Sending after the first completion and the buffer is empty and the
engine Idle after the second; in both cases the bytes of the transfers
started, in order, are exactly the `p` queued bytes. -/
theorem C17_dma_drain (cfg : Config) (s : Logger) (p : Nat)
    (hd : cfg.LOG_USE_DMA = true) (wf : WellFormed cfg s) (hb : s.tx_busy = false)
    (hc : count cfg s = p) (hp : 1 ≤ p) :
    (ring_buffer_send_next cfg s).tx_busy = true ∧
    (s.tail < s.head ∨ s.head = 0 →
      (completions cfg 1 (ring_buffer_send_next cfg s)).tx_busy = false ∧
      (completions cfg 1 (ring_buffer_send_next cfg s)).head
        = (completions cfg 1 (ring_buffer_send_next cfg s)).tail ∧
      ∃ new, (completions cfg 1 (ring_buffer_send_next cfg s)).uart_tx = s.uart_tx ++ new ∧
        new.length = 1 ∧ tx_bytes new = queued cfg s) ∧
    (0 < s.head ∧ s.head < s.tail →
      (completions cfg 1 (ring_buffer_send_next cfg s)).tx_busy = true ∧
      (completions cfg 2 (ring_buffer_send_next cfg s)).tx_busy = false ∧
      (completions cfg 2 (ring_buffer_send_next cfg s)).head
        = (completions cfg 2 (ring_buffer_send_next cfg s)).tail ∧
      ∃ new, (completions cfg 2 (ring_buffer_send_next cfg s)).uart_tx = s.uart_tx ++ new ∧
        new.length = 2 ∧ tx_bytes new = queued cfg s) ∧
    (queued cfg s).length = p := by
  have h1 := wf.head_lt
  have h2 := wf.tail_lt
  have hne : s.head ≠ s.tail := by
    intro h
    have := (count_eq_zero_iff wf).mpr h
    omega
  have hlen := send_len_dma wf hd
  have hcnt := count_eq wf
  have hround := dma_round hd wf hb hne
  have hc1 : completions cfg 1 (ring_buffer_send_next cfg s)
      = Logger_UART_TxCpltCallback cfg (huart_of cfg (ring_buffer_send_next cfg s))
          (ring_buffer_send_next cfg s) := rfl
  refine ⟨by rw [kick_dma hd wf hb hne], fun hcase => ?_, fun hcase => ?_,
    by rw [queued_length, hc]⟩
  · -- one transfer covers the whole queue
    have hL : send_len cfg s = count cfg s := by
      rw [hlen, hcnt]; split_ifs <;> omega
    have htail : (s.tail + send_len cfg s) % cfg.LOG_RING_BUFFER_SIZE = s.head := by
      rw [hL]; exact tail_add_count wf
    rw [hc1, hround, htail]
    have hk : ring_buffer_send_next cfg
        { s with tail := s.head, tx_busy := false,
                 uart_tx := s.uart_tx ++
                   [⟨s.tail, send_len cfg s, (queued cfg s).take (send_len cfg s)⟩] }
        = { s with tail := s.head, tx_busy := false,
                   uart_tx := s.uart_tx ++
                     [⟨s.tail, send_len cfg s, (queued cfg s).take (send_len cfg s)⟩] } := by
      simp [ring_buffer_send_next]
    rw [hk]
    refine ⟨rfl, rfl, _, rfl, rfl, ?_⟩
    simp only [tx_bytes, List.append_nil]
    rw [hL, ← queued_length, List.take_length]
  · -- the first transfer ends at the array end, the second starts at slot 0
    obtain ⟨hpos, hlt⟩ := hcase
    have hL : send_len cfg s = cfg.LOG_RING_BUFFER_SIZE - s.tail := by
      rw [hlen]; split_ifs <;> omega
    have hLle : send_len cfg s ≤ count cfg s := send_len_le_count wf hd
    have htail : (s.tail + send_len cfg s) % cfg.LOG_RING_BUFFER_SIZE = 0 := by
      rw [hL, show s.tail + (cfg.LOG_RING_BUFFER_SIZE - s.tail) = cfg.LOG_RING_BUFFER_SIZE
        by omega, Nat.mod_self]
    -- the state between the two transfers
    have wf2 : WellFormed cfg
        { s with tail := 0, tx_busy := false,
                 uart_tx := s.uart_tx ++
                   [⟨s.tail, send_len cfg s, (queued cfg s).take (send_len cfg s)⟩] } :=
      ⟨wf.pos, wf.le_u16, wf.head_lt, wf.pos⟩
    have hne2 : ({ s with tail := 0, tx_busy := false, uart_tx := s.uart_tx ++
          [⟨s.tail, send_len cfg s, (queued cfg s).take (send_len cfg s)⟩] } : Logger).head
        ≠ 0 := by
      simp only; omega
    have hq2 : queued cfg
        { s with tail := 0, tx_busy := false,
                 uart_tx := s.uart_tx ++
                   [⟨s.tail, send_len cfg s, (queued cfg s).take (send_len cfg s)⟩] }
        = (queued cfg s).drop (send_len cfg s) := by
      rw [← advance_queued wf hLle, htail]
      simp [queued, count]
    have hL2 : send_len cfg
        { s with tail := 0, tx_busy := false,
                 uart_tx := s.uart_tx ++
                   [⟨s.tail, send_len cfg s, (queued cfg s).take (send_len cfg s)⟩] }
        = s.head := by
      rw [send_len_dma wf2 hd]; simp
    have hcnt2 : count cfg
        { s with tail := 0, tx_busy := false,
                 uart_tx := s.uart_tx ++
                   [⟨s.tail, send_len cfg s, (queued cfg s).take (send_len cfg s)⟩] }
        = s.head := by
      rw [count_eq wf2]; simp
    have hround2 := dma_round hd wf2 rfl hne2
    rw [hL2] at hround2
    simp only [Nat.zero_add, Nat.mod_eq_of_lt wf.head_lt] at hround2
    have hc2 : completions cfg 2 (ring_buffer_send_next cfg s)
        = Logger_UART_TxCpltCallback cfg
            (huart_of cfg (completions cfg 1 (ring_buffer_send_next cfg s)))
            (completions cfg 1 (ring_buffer_send_next cfg s)) := rfl
    rw [hc2, hc1, hround, htail]
    refine ⟨by rw [kick_dma hd wf2 rfl hne2], ?_⟩
    rw [hround2]
    have hk : ∀ u, ring_buffer_send_next cfg
        { s with tail := s.head, tx_busy := false, uart_tx := u }
        = { s with tail := s.head, tx_busy := false, uart_tx := u } := by
      intro u; simp [ring_buffer_send_next]
    rw [hk]
    refine ⟨rfl, rfl, _, List.append_assoc _ _ _, rfl, ?_⟩
    simp only [tx_bytes, List.append_nil, List.singleton_append]
    rw [hq2, ← hcnt2, ← queued_length, hq2, List.take_length, List.take_append_drop]

/-- Three bytes queued across the end of a ring of 4 slots (`tail = 2`,
`head = 1`) in DMA mode: still Sending after one completion, Idle after two. -/
theorem C17_dma_drain_witness :
    (completions (config_dma 4) 1
      (ring_buffer_send_next (config_dma 4) (at_cursors (config_dma 4) 1 2))).tx_busy = true ∧
    (completions (config_dma 4) 2
      (ring_buffer_send_next (config_dma 4) (at_cursors (config_dma 4) 1 2))).tx_busy = false :=
  have h := (C17_dma_drain (config_dma 4) (at_cursors (config_dma 4) 1 2) 3 rfl
    ⟨by decide, by decide, by decide, by decide⟩ rfl (by decide) (by decide)).2.2.1
    ⟨by decide, by decide⟩
  ⟨h.1, h.2.1⟩

end McuLogger
